import Mathlib

/-!
Verification development for the Dockerized-Calibre-Content-Server repository.

The repository consists of two Python scripts:

* `scripts/backup_library.py` (the "producer"): fingerprints each configured
  Calibre library, creates a timestamped zip archive when the fingerprint
  changed, maintains one monthly snapshot per calendar month, and prunes old
  archives.
* `scripts/restore_backup.py` (the "consumer"): for each configured library,
  compares the producer's state file with a local "last restored" state file,
  and when they differ stops a Docker container, restores the newest
  non-monthly archive into the library directory, records the restored state,
  and finally restarts the container if anything was restored.

The scripts manipulate strings, directory listings and directory trees.  We
embed Python strings as `List Char` (`Str` below): Python compares strings
lexicographically by code point, which is exactly the lexicographic order on
the underlying character lists.  Python's `list.sort()` is a stable comparison
sort; we embed it as `List.insertionSort` (also stable), which is extensionally
equal to any stable sort over a total preorder.  The SHA-256 digest is kept
abstract (a parameter `digest`): every claim below concerns which byte records
are fed to the hash, never the hash's internals.
-/

/-- Python strings, embedded as their lists of characters. -/
abbrev Str := List Char

/-- Boolean lexicographic order on strings by code point.  This is exactly how
Python compares `str` values (and hence how `list.sort()` orders them). -/
def strLeB : Str → Str → Bool
  | [], _ => true
  | _ :: _, [] => false
  | a :: as, b :: bs => if a < b then true else if a = b then strLeB as bs else false

/-- Propositional form of `strLeB`, used as the sort relation. -/
abbrev strLeP (a b : Str) : Prop := strLeB a b = true

/-- Test whether `s` starts with `p` (Python `str.startswith`). -/
def strStarts : Str → Str → Bool
  | _, [] => true
  | [], _ :: _ => false
  | a :: as, b :: bs => a = b && strStarts as bs

/-- Test whether `s` ends with `p` (Python `str.endswith`). -/
def strEnds (s p : Str) : Bool := strStarts s.reverse p.reverse

/-- Test whether `pat` occurs as a contiguous substring of `s`
(Python's `pat in s`). -/
def containsSub (pat : Str) : Str → Bool
  | [] => strStarts [] pat
  | c :: rest => strStarts (c :: rest) pat || containsSub pat rest

/-- Python `str.lower()` restricted to the ASCII filenames this program
manipulates; `Char.toLower` lowers exactly the ASCII uppercase letters. -/
def strLower (s : Str) : Str := s.map Char.toLower

/-- Python `str.strip()`: drop whitespace from both ends. -/
def strTrim (s : Str) : Str :=
  ((s.dropWhile Char.isWhitespace).reverse.dropWhile Char.isWhitespace).reverse

/-- Decimal digits of `n`, most significant first; `fuel`-bounded structural
recursion so that the definition evaluates inside the kernel. -/
def natDigits : Nat → Nat → Str
  | 0, _ => []
  | fuel + 1, n => if n < 10 then [Nat.digitChar n] else natDigits fuel (n / 10) ++ [Nat.digitChar (n % 10)]

/-- Python `str(n)` for a natural number. -/
def natToStr (n : Nat) : Str := natDigits (n + 1) n

/-- Python `str(i)` for an integer (file mtimes are integers after `int(...)`
truncation; they can in principle be negative for pre-epoch timestamps). -/
def intToStr : Int → Str
  | .ofNat n => natToStr n
  | .negSucc n => '-' :: natToStr (n + 1)

/-!
## Directory trees and `compute_library_fingerprint`
(`scripts/backup_library.py`, lines 27-52)

`os.walk` enumerates each directory's subdirectory names and file names in an
order chosen by the operating system; the script sorts both lists in place
(`dirs.sort()`, `files.sort()`) before using them, and `os.walk(topdown)`
then recurses into the sorted subdirectory list.  We model the tree handed to
`os.walk` as an `FsTree` whose sibling lists appear in the OS enumeration
order, and model `os.stat` as a function from the file's path to an optional
(size, mtime) pair — `none` models the file vanishing between the directory
listing and the `stat` call (`FileNotFoundError`), which the script skips.

`os.path.relpath(full_path, library_dir)` yields the path below the library
root joined with the platform separator (a single character); we fix the
separator `/`.  `int(stat.st_mtime)` truncates the timestamp to whole seconds;
we model the already-truncated integer.
-/

/-- A directory tree as enumerated by the operating system: the file names and
the (name, subtree) pairs of subdirectories, each list in OS enumeration
order. -/
inductive FsTree : Type where
  | node : (files : List Str) → (dirs : List (Str × FsTree)) → FsTree

/-- Order on subdirectory entries: Python sorts the list of subdirectory
names, and within one directory a name determines its subtree. -/
abbrev dirLeP (a b : Str × FsTree) : Prop := strLeB a.1 b.1 = true

/-- Path separator used by `os.path.relpath`/`os.path.join` (one character on
the producer's platform; fixed here as `/`). -/
def pathSep : Str := ['/']

/-- The record the script appends to the running hash for one file:
`f"{rel_path}|{size}|{mtime}\n"` encoded in UTF-8
(`backup_library.py` line 49). -/
def fileRecord (relPath : Str) (size : Nat) (mtime : Int) : Str :=
  relPath ++ ['|'] ++ natToStr size ++ ['|'] ++ intToStr mtime ++ ['\n']

/-- The sequence of records fed to the hash by the `os.walk` loop of
`compute_library_fingerprint`: at each directory, the sorted file list is
processed (vanished files skipped), then the sorted subdirectory list is
recursed into.  `stat` maps a relative path to `some (size, mtime)` or `none`
(vanished); `pre` is the accumulated relative path of the current directory
(empty at the library root). -/
def walkRecords (stat : Str → Option (Nat × Int)) (pre : Str) : FsTree → List Str
  | .node files dirs =>
    (files.insertionSort strLeP).filterMap
      (fun name =>
        (stat (pre ++ name)).map (fun sm => fileRecord (pre ++ name) sm.1 sm.2))
    ++ (dirs.insertionSort dirLeP).attach.flatMap
      (fun p => walkRecords stat (pre ++ p.1.1 ++ pathSep) p.1.2)
termination_by t => sizeOf t
decreasing_by
  obtain ⟨⟨a, b⟩, hp⟩ := p
  rw [List.mem_insertionSort] at hp
  have h2 := List.sizeOf_lt_of_mem hp
  simp only [FsTree.node.sizeOf_spec, Prod.mk.sizeOf_spec] at h2 ⊢
  omega

/-- The model of `compute_library_fingerprint` (`backup_library.py` 27-52):
the hex digest of the SHA-256 hash of the concatenated records.  The hash and
hex encoding are kept abstract as `digest`; all claims concern the byte stream
fed to it. -/
def compute_library_fingerprint (digest : Str → Str) (stat : Str → Option (Nat × Int))
    (t : FsTree) : Str :=
  digest (walkRecords stat [] t).flatten

/-- Canonical form of a tree: every sibling list sorted the way the script
sorts it.  Two OS enumerations of the same on-disk tree have the same
canonical form. -/
def canon : FsTree → FsTree
  | .node files dirs =>
    .node (files.insertionSort strLeP)
      ((dirs.insertionSort dirLeP).attach.map (fun p => (p.1.1, canon p.1.2)))
termination_by t => sizeOf t
decreasing_by
  obtain ⟨⟨a, b⟩, hp⟩ := p
  rw [List.mem_insertionSort] at hp
  have h2 := List.sizeOf_lt_of_mem hp
  simp only [FsTree.node.sizeOf_spec, Prod.mk.sizeOf_spec] at h2 ⊢
  omega

/-- Well-formedness of an enumerated tree: within each directory the
subdirectory names are distinct (true of every real directory listing). -/
def wfB : FsTree → Bool
  | .node _ dirs =>
    ((dirs.map Prod.fst).Nodup : Prop) &&
      dirs.attach.all (fun p => wfB p.1.2)
termination_by t => sizeOf t
decreasing_by
  obtain ⟨⟨a, b⟩, hp⟩ := p
  have h2 := List.sizeOf_lt_of_mem hp
  simp only [FsTree.node.sizeOf_spec, Prod.mk.sizeOf_spec] at h2 ⊢
  omega

/-- Two trees are `Shuffled` when they enumerate the same on-disk tree: at
every level the file lists are permutations of each other and the
subdirectory lists are permutations up to recursively shuffled subtrees. -/
inductive Shuffled : FsTree → FsTree → Prop where
  | node {files₁ files₂ : List Str} {dirs₁ dirs₂ ds : List (Str × FsTree)} :
      files₁.Perm files₂ →
      dirs₁.Perm ds →
      (hl : ds.length = dirs₂.length) →
      (∀ i (h₁ : i < ds.length), (ds.get ⟨i, h₁⟩).1 = (dirs₂.get ⟨i, hl ▸ h₁⟩).1) →
      (∀ i (h₁ : i < ds.length), Shuffled (ds.get ⟨i, h₁⟩).2 (dirs₂.get ⟨i, hl ▸ h₁⟩).2) →
      Shuffled (.node files₁ dirs₁) (.node files₂ dirs₂)

/-- Specification-side description of the fingerprint input (used to compare
the code against the spec's words): the (relative path, size, integer mtime)
triple of every regular file encountered during the per-level-sorted
traversal, vanished files excluded. -/
def specEntries (stat : Str → Option (Nat × Int)) (pre : Str) : FsTree → List (Str × Nat × Int)
  | .node files dirs =>
    (files.insertionSort strLeP).filterMap
      (fun name => (stat (pre ++ name)).map (fun sm => (pre ++ name, sm)))
    ++ (dirs.insertionSort dirLeP).attach.flatMap
      (fun p => specEntries stat (pre ++ p.1.1 ++ pathSep) p.1.2)
termination_by t => sizeOf t
decreasing_by
  obtain ⟨⟨a, b⟩, hp⟩ := p
  rw [List.mem_insertionSort] at hp
  have h2 := List.sizeOf_lt_of_mem hp
  simp only [FsTree.node.sizeOf_spec, Prod.mk.sizeOf_spec] at h2 ⊢
  omega

/-!
## Producer state handling and archives
(`scripts/backup_library.py`, lines 55-116 and 153-169)

The producer's observable filesystem state, per library, is the content of the
state file `{prefix}_library_state.txt` (`Option Str`, `none` when the file
does not exist) and the list of file names in `BACKUP_DIR`.  We record the
producer's side effects as an event trace in program order.
-/

/-- Configured number of recent (non-monthly) backups kept per library
(`backup_library.py` line 17). -/
def MAX_RECENT_BACKUPS : Nat := 1

/-- Configured number of monthly snapshots kept per library
(`backup_library.py` line 20). -/
def MAX_MONTHLY_SNAPSHOTS : Nat := 12

/-- Model of `has_library_changed` (`backup_library.py` 59-78) applied to the
freshly computed fingerprint `current` and the raw state-file content
`stateRaw`: returns the boolean result together with the state-file content
after the call.  If the state file exists and its stripped content equals
`current`, it returns `False` without writing; otherwise it writes `current`
and returns `True`. -/
def has_library_changed (stateRaw : Option Str) (current : Str) : Bool × Option Str :=
  match stateRaw with
  | some old => if strTrim old = current then (false, some old) else (true, some current)
  | none => (true, some current)

/-- The name of a recent archive, `f"{prefix}_library_{timestamp}.zip"`
(`backup_library.py` line 84). -/
def archiveName (pfx timestamp : Str) : Str :=
  pfx ++ "_library_".toList ++ timestamp ++ ".zip".toList

/-- The name of the monthly snapshot for one calendar month,
`f"{prefix}_library_{month_tag}_monthly.zip"` (`backup_library.py` line 108). -/
def monthlyName (pfx monthTag : Str) : Str :=
  pfx ++ "_library_".toList ++ monthTag ++ "_monthly.zip".toList

/-- Creating a file adds its name to the directory listing (creating a file
that already exists truncates it and leaves the listing unchanged). -/
def insertName (n : Str) (dir : List Str) : List Str :=
  if n ∈ dir then dir else n :: dir

/-- Events recorded from a producer run, in program order. -/
inductive PEvent : Type where
  | writeState (value : Str)
  | createArchive (name : Str)
  | copyMonthly (name : Str)
  | deleteFile (name : Str)
deriving DecidableEq

/-- Model of `ensure_monthly_snapshot` (`backup_library.py` 100-116): if no
file named `monthlyName pfx monthTag` exists in the backup directory, copy the
latest backup to that name; otherwise do nothing.  Returns the emitted events
and the new directory listing. -/
def ensure_monthly_snapshot (pfx monthTag : Str) (dir : List Str) : List PEvent × List Str :=
  if monthlyName pfx monthTag ∈ dir then ([], dir)
  else ([PEvent.copyMonthly (monthlyName pfx monthTag)],
        insertName (monthlyName pfx monthTag) dir)

/-- The filter of `prune_backups_for_prefix` (`backup_library.py` 126-129):
names ending in `.zip` case-insensitively and starting with
`{prefix}_library_`. -/
def zipsForPfx (pfx : Str) (names : List Str) : List Str :=
  names.filter (fun n =>
    strEnds (strLower n) ".zip".toList && strStarts n (pfx ++ "_library_".toList))

/-- Membership test `"_monthly" in os.path.basename(p)`
(`backup_library.py` 132-133); the listing holds base names, and joining with
the common `BACKUP_DIR` prefix changes neither this test nor the sort order. -/
def isMonthlyFile (n : Str) : Bool := containsSub "_monthly".toList n

/-- The sorted recent (non-monthly) partition of the library's zip files
(`backup_library.py` 132, 135). -/
def recentSorted (pfx : Str) (names : List Str) : List Str :=
  ((zipsForPfx pfx names).filter (fun n => !isMonthlyFile n)).insertionSort strLeP

/-- The sorted monthly partition of the library's zip files
(`backup_library.py` 133, 136). -/
def monthlySorted (pfx : Str) (names : List Str) : List Str :=
  ((zipsForPfx pfx names).filter (fun n => isMonthlyFile n)).insertionSort strLeP

/-- Python's slice `l[:-k]`: all elements except the last `k` (empty when
`k = 0`). -/
def sliceDropLast (l : List Str) (k : Nat) : List Str :=
  if k = 0 then [] else l.take (l.length - k)

/-- Names deleted from the recent partition by `prune_backups_for_prefix`
(`backup_library.py` 138-143). -/
def pruneRecentDeleted (pfx : Str) (names : List Str) : List Str :=
  if MAX_RECENT_BACKUPS < (recentSorted pfx names).length
  then sliceDropLast (recentSorted pfx names) MAX_RECENT_BACKUPS
  else []

/-- Names deleted from the monthly partition by `prune_backups_for_prefix`
(`backup_library.py` 145-150). -/
def pruneMonthlyDeleted (pfx : Str) (names : List Str) : List Str :=
  if MAX_MONTHLY_SNAPSHOTS < (monthlySorted pfx names).length
  then sliceDropLast (monthlySorted pfx names) MAX_MONTHLY_SNAPSHOTS
  else []

/-- All names deleted by `prune_backups_for_prefix` (`backup_library.py`
119-150), recent partition first, in program order. -/
def pruneDeleted (pfx : Str) (names : List Str) : List Str :=
  pruneRecentDeleted pfx names ++ pruneMonthlyDeleted pfx names

/-- The backup directory listing after `prune_backups_for_prefix` ran. -/
def pruneSurvivors (pfx : Str) (names : List Str) : List Str :=
  names.filter (fun n => !(n ∈ pruneDeleted pfx names : Bool))

/-- One iteration of the producer's per-library loop (`backup_library.py`
156-167) for the library `pfx`: guard on the library directory existing, call
`has_library_changed` (which persists the new fingerprint *before* returning
`True`), then create the timestamped archive, ensure the monthly snapshot and
prune.  `fresh` is the freshly computed fingerprint, `ts` and `mon` the
formatted timestamp and month tag of `datetime.now()`.  Returns the event
trace in program order, the state-file content after the run and the backup
directory listing after the run. -/
def producer_lib_step (pfx : Str) (dirExists : Bool) (stateRaw : Option Str)
    (dir : List Str) (fresh ts mon : Str) : List PEvent × Option Str × List Str :=
  if !dirExists then ([], stateRaw, dir)
  else
    match has_library_changed stateRaw fresh with
    | (false, st) => ([], st, dir)
    | (true, st) =>
      let an := archiveName pfx ts
      let dir1 := insertName an dir
      let mdir := ensure_monthly_snapshot pfx mon dir1
      let del := pruneDeleted pfx mdir.2
      let dir3 := mdir.2.filter (fun n => !(n ∈ del : Bool))
      (PEvent.writeState fresh :: PEvent.createArchive an :: (mdir.1 ++ del.map PEvent.deleteFile),
       st, dir3)

/-- Per-library inputs of one producer run (`backup_library.py` 156-167):
whether the library directory exists, the raw state-file content, the fresh
fingerprint and the formatted timestamp and month tag of this iteration, and
whether packing the archive (`create_backup_zip`) would raise (e.g. an I/O
error while writing the zip).  The libraries share the backup directory
listing, which is threaded through the run. -/
structure PLibRec : Type where
  pfx : Str
  dirExists : Bool
  stateRaw : Option Str
  fresh : Str
  ts : Str
  mon : Str
  packRaises : Bool
deriving DecidableEq

/-- One iteration of the producer's loop including the possibility that
`create_backup_zip` raises.  The pack is reached only when the directory
exists and `has_library_changed` returned `True` — by then the state file is
already written and `zipfile.ZipFile(path, "w")` has created the (partial)
archive file, so on a raise the trace holds the write event, the listing
holds the archive name, and no archive-completed event is recorded.  Returns
the events, the state-file content after, the listing after, and whether the
iteration raised. -/
def producer_lib_run (dir : List Str) (r : PLibRec) :
    List PEvent × Option Str × List Str × Bool :=
  if r.packRaises && r.dirExists && (has_library_changed r.stateRaw r.fresh).1 then
    ([PEvent.writeState r.fresh], (has_library_changed r.stateRaw r.fresh).2,
     insertName (archiveName r.pfx r.ts) dir, true)
  else
    ((producer_lib_step r.pfx r.dirExists r.stateRaw dir r.fresh r.ts r.mon).1,
     (producer_lib_step r.pfx r.dirExists r.stateRaw dir r.fresh r.ts r.mon).2.1,
     (producer_lib_step r.pfx r.dirExists r.stateRaw dir r.fresh r.ts r.mon).2.2, false)

/-- The producer's `for` loop over the configured libraries
(`backup_library.py` 156-167).  An uncaught exception short-circuits the
loop: no later library is attempted.  Returns the accumulated events, the
prefixes of the libraries whose iteration ran (each iteration prints a
per-library message, so this is observable), the final backup-directory
listing and whether the loop raised. -/
def producer_fold : List PLibRec → List Str → List PEvent × List Str × List Str × Bool
  | [], dir => ([], [], dir, false)
  | r :: rest, dir =>
    if (producer_lib_run dir r).2.2.2 then
      ((producer_lib_run dir r).1, [r.pfx], (producer_lib_run dir r).2.2.1, true)
    else
      ((producer_lib_run dir r).1 ++ (producer_fold rest (producer_lib_run dir r).2.2.1).1,
       r.pfx :: (producer_fold rest (producer_lib_run dir r).2.2.1).2.1,
       (producer_fold rest (producer_lib_run dir r).2.2.1).2.2.1,
       (producer_fold rest (producer_lib_run dir r).2.2.1).2.2.2)

/-!
## Consumer (`scripts/restore_backup.py`)

The consumer's per-library inputs are the raw contents of the producer state
file and of the local "last restored" state file (both `Option Str`), plus the
shared `BACKUP_DIR` listing.  Restores can raise (e.g. an I/O error while
unpacking the zip); `extractRaises` records whether this library's extraction
would raise.  Python propagates such an exception out of the `for` loop, so
the run model short-circuits when it is set.
-/

/-- Model of `read_state` (`restore_backup.py` 41-46): `None` if the file does
not exist, else the stripped content, with the empty string collapsed to
`None` (`f.read().strip() or None`). -/
def read_state (raw : Option Str) : Option Str :=
  match raw with
  | none => none
  | some s => if strTrim s = [] then none else some (strTrim s)

/-- Model of `find_latest_non_monthly_backup` (`restore_backup.py` 55-81):
keep names ending in `.zip` (case-sensitively here), starting with
`{prefix}_library_` and not containing `_monthly`; sort; return the last, or
`None` when there is none. -/
def find_latest_non_monthly_backup (pfx : Str) (dirNames : List Str) : Option Str :=
  let candidates := dirNames.filter (fun n =>
    strEnds n ".zip".toList && strStarts n (pfx ++ "_library_".toList) && !isMonthlyFile n)
  (candidates.insertionSort strLeP).getLast?

/-- Events recorded from a consumer run, in program order. -/
inductive CEvent : Type where
  | processLib (pfx : Str)
  | stopContainer
  | startContainer
  | clearDir (pfx : Str)
  | extract (pfx : Str) (archive : Str)
  | writeLocal (pfx : Str) (value : Str)
deriving DecidableEq

/-- Per-library inputs of one consumer run. -/
structure LibRec : Type where
  pfx : Str
  remoteRaw : Option Str
  localRaw : Option Str
  extractRaises : Bool
deriving DecidableEq

/-- One iteration of the consumer's per-library loop (`restore_backup.py`
140-175), given the `any_restored` flag on entry.  Returns the event trace of
the iteration, the flag on exit, and whether the iteration raised (an
exception during extraction).  The container-stop command is issued when the
states differ and `any_restored` is still false (`restore_backup.py`
159-161); the local state is written only after the extraction completed
(`restore_backup.py` 169-172). -/
def consumer_lib_step (dirNames : List Str) (r : LibRec) (anyRestored : Bool) :
    List CEvent × Bool × Bool :=
  let ev0 := [CEvent.processLib r.pfx]
  match read_state r.remoteRaw with
  | none => (ev0, anyRestored, false)
  | some remote =>
    if read_state r.localRaw = some remote then (ev0, anyRestored, false)
    else
      let evStop := if anyRestored then [] else [CEvent.stopContainer]
      match find_latest_non_monthly_backup r.pfx dirNames with
      | none => (ev0 ++ evStop, anyRestored, false)
      | some latest =>
        if r.extractRaises then
          (ev0 ++ evStop ++ [CEvent.clearDir r.pfx], anyRestored, true)
        else
          (ev0 ++ evStop ++
             [CEvent.clearDir r.pfx, CEvent.extract r.pfx latest,
              CEvent.writeLocal r.pfx remote],
           true, false)

/-- The consumer's `for` loop over the configured libraries
(`restore_backup.py` 140-175).  An uncaught exception short-circuits the loop:
no later library is processed.  Returns the accumulated events, the final
`any_restored` flag and whether the loop raised. -/
def consumer_fold (dirNames : List Str) : List LibRec → Bool → List CEvent × Bool × Bool
  | [], anyRestored => ([], anyRestored, false)
  | r :: rest, anyRestored =>
    if (consumer_lib_step dirNames r anyRestored).2.2 then
      ((consumer_lib_step dirNames r anyRestored).1,
       (consumer_lib_step dirNames r anyRestored).2.1, true)
    else
      ((consumer_lib_step dirNames r anyRestored).1 ++
         (consumer_fold dirNames rest (consumer_lib_step dirNames r anyRestored).2.1).1,
       (consumer_fold dirNames rest (consumer_lib_step dirNames r anyRestored).2.1).2.1,
       (consumer_fold dirNames rest (consumer_lib_step dirNames r anyRestored).2.1).2.2)

/-- Model of the consumer's `main` (`restore_backup.py` 133-183): bail out if
the backup directory is missing; run the loop; if it raised, the exception
propagates (no container start); otherwise start the container exactly when
`any_restored` is set.  Returns the event trace and whether the run raised. -/
def consumer_main (backupDirExists : Bool) (dirNames : List Str) (libs : List LibRec) :
    List CEvent × Bool :=
  if !backupDirExists then ([], false)
  else if (consumer_fold dirNames libs false).2.2 then
    ((consumer_fold dirNames libs false).1, true)
  else if (consumer_fold dirNames libs false).2.1 then
    ((consumer_fold dirNames libs false).1 ++ [CEvent.startContainer], false)
  else ((consumer_fold dirNames libs false).1, false)

/-!
## `clear_directory` (`scripts/restore_backup.py`, lines 84-92)

`clear_directory` iterates over the direct entries of the destination and
removes each one: `shutil.rmtree` for entries that are directories *and not
symbolic links*, `os.remove` for everything else.  `os.path.isdir` follows
symbolic links, so a symlink to a directory satisfies it; the `islink` guard
is what routes such entries to `os.remove`, which unlinks only the link.

We model an entry by its kind and a symlink's target by a name in an
`outside` region (objects living outside the destination directory), and give
the OS primitives their real semantics: unlinking never touches the target,
while removing a directory tree *through* a resolved directory symlink would
destroy the target.  The theorem shows the code never reaches that branch.
-/

/-- Kind of a direct entry of the restore destination. -/
inductive FsEntry : Type where
  | file
  | subdir
  | linkToDir (target : Str)
  | linkToFile (target : Str)
deriving DecidableEq

/-- `os.path.isdir` follows symbolic links: true for a real subdirectory and
for a symlink whose target is a directory. -/
def os_path_isdir : FsEntry → Bool
  | .subdir => true
  | .linkToDir _ => true
  | _ => false

/-- `os.path.islink`: true exactly for symbolic links. -/
def os_path_islink : FsEntry → Bool
  | .linkToDir _ => true
  | .linkToFile _ => true
  | _ => false

/-- Effect on the outside region of removing a directory tree at this entry:
a real subdirectory lives inside the destination, so the outside region is
untouched; applying tree removal through a resolved directory symlink would
destroy the link's target. -/
def rmtree_effect (outside : List Str) : FsEntry → List Str
  | .linkToDir target => outside.filter (fun p => !(p = target : Bool))
  | _ => outside

/-- Effect on the outside region of `os.remove`: unlinking a direct entry
(including a symbolic link) never touches anything outside the destination. -/
def os_remove_effect (outside : List Str) (_e : FsEntry) : List Str := outside

/-- Model of `clear_directory` (`restore_backup.py` 84-92): `os.makedirs(...,
exist_ok=True)` creates the destination if absent, then every direct entry is
removed — `shutil.rmtree` when it is a non-link directory, `os.remove`
otherwise.  Returns the destination contents and the outside region after the
call. -/
def clear_directory (dest : Option (List (Str × FsEntry))) (outside : List Str) :
    Option (List (Str × FsEntry)) × List Str :=
  let entries := dest.getD []
  (some [],
   entries.foldl
     (fun acc p =>
       if os_path_isdir p.2 && !os_path_islink p.2
       then rmtree_effect acc p.2
       else os_remove_effect acc p.2)
     outside)

/-!
## Helper lemmas

Basic facts about the lexicographic string order used by the sorts, and
unfoldings of the tree-recursive definitions that eliminate the `attach`
bookkeeping their termination proofs required.
-/

theorem strLeB_total (a b : Str) : strLeB a b = true ∨ strLeB b a = true := by
  induction a generalizing b with
  | nil => left; rfl
  | cons x xs ih =>
    cases b with
    | nil => right; rfl
    | cons y ys =>
      simp only [strLeB]
      rcases lt_trichotomy x y with h | h | h
      · left; rw [if_pos h]
      · subst h
        simp only [lt_irrefl, if_false, if_pos rfl]
        exact ih ys
      · right; rw [if_pos h]

theorem strLeB_trans (a b c : Str) (hab : strLeB a b = true) (hbc : strLeB b c = true) :
    strLeB a c = true := by
  induction a generalizing b c with
  | nil => rfl
  | cons x xs ih =>
    cases b with
    | nil => exact absurd hab (by simp [strLeB])
    | cons y ys =>
      cases c with
      | nil => exact absurd hbc (by simp [strLeB])
      | cons z zs =>
        simp only [strLeB] at hab hbc ⊢
        rcases lt_trichotomy x y with hxy | hxy | hxy
        · rcases lt_trichotomy y z with hyz | hyz | hyz
          · rw [if_pos (lt_trans hxy hyz)]
          · subst hyz; rw [if_pos hxy]
          · rw [if_neg (lt_asymm hyz), if_neg (ne_of_gt hyz)] at hbc
            exact absurd hbc (by simp)
        · subst hxy
          rcases lt_trichotomy x z with hyz | hyz | hyz
          · rw [if_pos hyz]
          · subst hyz
            rw [if_neg (lt_irrefl x), if_pos rfl] at hab hbc ⊢
            exact ih ys zs hab hbc
          · rw [if_neg (lt_asymm hyz), if_neg (ne_of_gt hyz)] at hbc
            exact absurd hbc (by simp)
        · rw [if_neg (lt_asymm hxy), if_neg (ne_of_gt hxy)] at hab
          exact absurd hab (by simp)

theorem strLeB_antisymm (a b : Str) (hab : strLeB a b = true) (hba : strLeB b a = true) :
    a = b := by
  induction a generalizing b with
  | nil =>
    cases b with
    | nil => rfl
    | cons y ys => exact absurd hba (by simp [strLeB])
  | cons x xs ih =>
    cases b with
    | nil => exact absurd hab (by simp [strLeB])
    | cons y ys =>
      simp only [strLeB] at hab hba
      rcases lt_trichotomy x y with hxy | hxy | hxy
      · rw [if_neg (lt_asymm hxy), if_neg (ne_of_gt hxy)] at hba
        exact absurd hba (by simp)
      · subst hxy
        rw [if_neg (lt_irrefl x), if_pos rfl] at hab hba
        rw [ih ys hab hba]
      · rw [if_neg (lt_asymm hxy), if_neg (ne_of_gt hxy)] at hab
        exact absurd hab (by simp)

theorem attach_flatMap {α : Type} {β : Type} (l : List α) (g : α → List β) :
    (l.attach.flatMap fun p => g p.1) = l.flatMap g := by
  conv_rhs => rw [← List.attach_map_subtype_val l]
  rw [List.flatMap_map]

theorem attach_map_fn {α : Type} {β : Type} (l : List α) (g : α → β) :
    (l.attach.map fun p => g p.1) = l.map g := by
  conv_rhs => rw [← List.attach_map_subtype_val l]
  rw [List.map_map]
  rfl

theorem attach_all {α : Type} (l : List α) (g : α → Bool) :
    (l.attach.all fun p => g p.1) = l.all g := by
  rw [Bool.eq_iff_iff, List.all_eq_true, List.all_eq_true]
  constructor
  · intro h x hx
    exact h ⟨x, hx⟩ (List.mem_attach _ _)
  · intro h p _
    exact h p.1 p.2

theorem walkRecords_node (stat : Str → Option (Nat × Int)) (pre : Str)
    (files : List Str) (dirs : List (Str × FsTree)) :
    walkRecords stat pre (.node files dirs) =
      (files.insertionSort strLeP).filterMap
        (fun name =>
          (stat (pre ++ name)).map (fun sm => fileRecord (pre ++ name) sm.1 sm.2))
      ++ (dirs.insertionSort dirLeP).flatMap
        (fun p => walkRecords stat (pre ++ p.1 ++ pathSep) p.2) := by
  rw [walkRecords]
  congr 1
  exact attach_flatMap (List.insertionSort dirLeP dirs)
    (fun p => walkRecords stat (pre ++ p.1 ++ pathSep) p.2)

theorem canon_node (files : List Str) (dirs : List (Str × FsTree)) :
    canon (.node files dirs) =
      .node (files.insertionSort strLeP)
        ((dirs.insertionSort dirLeP).map (fun p => (p.1, canon p.2))) := by
  rw [canon]
  congr 1
  exact attach_map_fn (List.insertionSort dirLeP dirs) (fun p => (p.1, canon p.2))

theorem wfB_node (files : List Str) (dirs : List (Str × FsTree)) :
    wfB (.node files dirs) =
      (decide (dirs.map Prod.fst).Nodup && dirs.all (fun p => wfB p.2)) := by
  rw [wfB]
  congr 1
  exact attach_all dirs (fun p => wfB p.2)

theorem specEntries_node (stat : Str → Option (Nat × Int)) (pre : Str)
    (files : List Str) (dirs : List (Str × FsTree)) :
    specEntries stat pre (.node files dirs) =
      (files.insertionSort strLeP).filterMap
        (fun name => (stat (pre ++ name)).map (fun sm => (pre ++ name, sm)))
      ++ (dirs.insertionSort dirLeP).flatMap
        (fun p => specEntries stat (pre ++ p.1 ++ pathSep) p.2) := by
  rw [specEntries]
  congr 1
  exact attach_flatMap (List.insertionSort dirLeP dirs)
    (fun p => specEntries stat (pre ++ p.1 ++ pathSep) p.2)

/-- Structural induction principle for `FsTree` with the subtree hypotheses
gathered by membership. -/
theorem FsTree.inductionOn {P : FsTree → Prop}
    (h : ∀ files dirs, (∀ p ∈ dirs, P p.2) → P (FsTree.node files dirs)) :
    ∀ t, P t
  | .node files dirs => h files dirs (fun p _hp => FsTree.inductionOn h p.2)
termination_by t => sizeOf t
decreasing_by
  obtain ⟨a, b⟩ := p
  have h2 := List.sizeOf_lt_of_mem _hp
  simp only [FsTree.node.sizeOf_spec, Prod.mk.sizeOf_spec] at h2 ⊢
  omega



theorem has_library_changed_none (current : Str) :
    has_library_changed none current = (true, some current) := rfl

theorem has_library_changed_some (old current : Str) :
    has_library_changed (some old) current =
      if strTrim old = current then (false, some old) else (true, some current) := rfl

theorem ensure_monthly_of_mem (pfx mon : Str) (d : List Str)
    (h : monthlyName pfx mon ∈ d) :
    ensure_monthly_snapshot pfx mon d = ([], d) := by
  unfold ensure_monthly_snapshot
  rw [if_pos h]

theorem ensure_monthly_of_not_mem (pfx mon : Str) (d : List Str)
    (h : monthlyName pfx mon ∉ d) :
    ensure_monthly_snapshot pfx mon d =
      ([PEvent.copyMonthly (monthlyName pfx mon)], monthlyName pfx mon :: d) := by
  unfold ensure_monthly_snapshot insertName
  rw [if_neg h, if_neg h]

/-!
## Claim theorems
-/

/-- C10: clearing a restore destination removes only the entries directly
under the destination and keeps (or creates) the destination directory
itself; for every symbolic-link entry — including a symlink to a directory —
only the link is unlinked, so no object in the outside region (in particular
no link target) is ever deleted by `clear_directory`. -/
theorem clear_directory_frame (dest : Option (List (Str × FsEntry))) (outside : List Str) :
    clear_directory dest outside = (some [], outside) := by
  have h : ∀ (entries : List (Str × FsEntry)) (out : List Str),
      entries.foldl
        (fun acc p =>
          if os_path_isdir p.2 && !os_path_islink p.2
          then rmtree_effect acc p.2
          else os_remove_effect acc p.2)
        out = out := by
    intro entries
    induction entries with
    | nil => intro out; rfl
    | cons e rest ih =>
      intro out
      rw [List.foldl_cons]
      have hbranch :
          (if os_path_isdir e.2 && !os_path_islink e.2
           then rmtree_effect out e.2
           else os_remove_effect out e.2) = out := by
        cases e.2 <;>
          simp [os_path_isdir, os_path_islink, rmtree_effect, os_remove_effect]
      rw [hbranch, ih]
  unfold clear_directory
  exact congrArg (Prod.mk (some [])) (h (dest.getD []) outside)

/-- C6: for each library and calendar month there is exactly one possible
monthly-artifact name, `ensure_monthly_snapshot` creates it only when absent,
and re-running it (any number of times, within the same month) neither emits
further copy events nor changes the backup directory: at most one monthly
artifact per (library, month) ever exists, however many producer runs occur
in the month. -/
theorem monthly_snapshot_at_most_once (pfx mon : Str) (dir : List Str)
    (h : dir.count (monthlyName pfx mon) ≤ 1) :
    ((ensure_monthly_snapshot pfx mon dir).2.count (monthlyName pfx mon) = 1) ∧
    (ensure_monthly_snapshot pfx mon ((ensure_monthly_snapshot pfx mon dir).2) =
      ([], (ensure_monthly_snapshot pfx mon dir).2)) ∧
    (∀ n : Nat, (fun d => (ensure_monthly_snapshot pfx mon d).2)^[n]
        ((ensure_monthly_snapshot pfx mon dir).2) = (ensure_monthly_snapshot pfx mon dir).2) := by
  have hmem : monthlyName pfx mon ∈ (ensure_monthly_snapshot pfx mon dir).2 := by
    by_cases hin : monthlyName pfx mon ∈ dir
    · rw [ensure_monthly_of_mem pfx mon dir hin]
      exact hin
    · rw [ensure_monthly_of_not_mem pfx mon dir hin]
      exact List.mem_cons_self _ _
  have hcount : (ensure_monthly_snapshot pfx mon dir).2.count (monthlyName pfx mon) = 1 := by
    by_cases hin : monthlyName pfx mon ∈ dir
    · rw [ensure_monthly_of_mem pfx mon dir hin]
      have hpos : 0 < dir.count (monthlyName pfx mon) := List.count_pos_iff.mpr hin
      show dir.count (monthlyName pfx mon) = 1
      omega
    · rw [ensure_monthly_of_not_mem pfx mon dir hin]
      show (monthlyName pfx mon :: dir).count (monthlyName pfx mon) = 1
      rw [List.count_cons_self, List.count_eq_zero.mpr hin]
  have hsecond := ensure_monthly_of_mem pfx mon _ hmem
  refine ⟨hcount, hsecond, ?_⟩
  intro n
  induction n with
  | zero => rfl
  | succ k ih =>
    rw [Function.iterate_succ_apply, hsecond]
    exact ih

/-- C3: when the fresh fingerprint differs from the stored one (or no state
file exists), the producer's per-library step persists the new fingerprint
and the write event strictly precedes every archive-creation event in the
trace; consequently a second producer run that starts after the state write
but before (or instead of) the archive creation reads a state equal to the
fresh fingerprint and does nothing at all — in particular it creates no
archive. -/
theorem producer_state_written_before_archive
    (pfx : Str) (stateRaw : Option Str) (dir : List Str) (fresh ts mon : Str)
    (hch : ∀ old, stateRaw = some old → strTrim old ≠ fresh) :
    ((producer_lib_step pfx true stateRaw dir fresh ts mon).2.1 = some fresh) ∧
    ((producer_lib_step pfx true stateRaw dir fresh ts mon).1.head? =
        some (PEvent.writeState fresh)) ∧
    (∀ i (hi : i < (producer_lib_step pfx true stateRaw dir fresh ts mon).1.length) name,
        (producer_lib_step pfx true stateRaw dir fresh ts mon).1.get ⟨i, hi⟩ =
            PEvent.createArchive name →
        ∃ j, ∃ hj : j < (producer_lib_step pfx true stateRaw dir fresh ts mon).1.length,
          j < i ∧ (producer_lib_step pfx true stateRaw dir fresh ts mon).1.get ⟨j, hj⟩ =
            PEvent.writeState fresh) ∧
    (strTrim fresh = fresh →
      ∀ dir2 ts2 mon2,
        producer_lib_step pfx true (some fresh) dir2 fresh ts2 mon2 = ([], some fresh, dir2)) := by
  have hhc : has_library_changed stateRaw fresh = (true, some fresh) := by
    cases stateRaw with
    | none => rfl
    | some old =>
      rw [has_library_changed_some, if_neg (hch old rfl)]
  have hstep : producer_lib_step pfx true stateRaw dir fresh ts mon =
      (PEvent.writeState fresh :: PEvent.createArchive (archiveName pfx ts) ::
         ((ensure_monthly_snapshot pfx mon (insertName (archiveName pfx ts) dir)).1 ++
           (pruneDeleted pfx
             (ensure_monthly_snapshot pfx mon (insertName (archiveName pfx ts) dir)).2).map
             PEvent.deleteFile),
       some fresh,
       (ensure_monthly_snapshot pfx mon (insertName (archiveName pfx ts) dir)).2.filter
         (fun n => !(n ∈ pruneDeleted pfx
            (ensure_monthly_snapshot pfx mon (insertName (archiveName pfx ts) dir)).2 : Bool))) := by
    unfold producer_lib_step
    rw [hhc]
    rfl
  rw [hstep]
  refine ⟨rfl, rfl, ?_, ?_⟩
  · intro i hi name hget
    refine ⟨0, by simp, ?_, rfl⟩
    rcases Nat.eq_zero_or_pos i with h0 | h0
    · subst h0
      simp at hget
    · exact h0
  · intro hf dir2 ts2 mon2
    have h1 : has_library_changed (some fresh) fresh = (false, some fresh) := by
      rw [has_library_changed_some, if_pos hf]
    unfold producer_lib_step
    rw [h1]
    rfl

/-- C8: running the producer's per-library step twice with the same fresh
fingerprint (the library did not change in between) performs no action at all
the second time: the second run emits no events — no recent archive, no
monthly copy, no deletion — and leaves both the state file and the backup
directory untouched.  The hypothesis states that fingerprints contain no
surrounding whitespace (they are hex digests). -/
theorem producer_second_run_creates_nothing
    (pfx : Str) (st0 : Option Str) (dir : List Str) (fresh ts mon ts2 mon2 : Str)
    (hf : strTrim fresh = fresh) :
    producer_lib_step pfx true
        (producer_lib_step pfx true st0 dir fresh ts mon).2.1
        (producer_lib_step pfx true st0 dir fresh ts mon).2.2 fresh ts2 mon2 =
      ([], (producer_lib_step pfx true st0 dir fresh ts mon).2.1,
           (producer_lib_step pfx true st0 dir fresh ts mon).2.2) := by
  have key : ∀ v, strTrim v = fresh → ∀ d,
      producer_lib_step pfx true (some v) d fresh ts2 mon2 = ([], some v, d) := by
    intro v hv d
    have h1 : has_library_changed (some v) fresh = (false, some v) := by
      rw [has_library_changed_some, if_pos hv]
    unfold producer_lib_step
    rw [h1]
    rfl
  have hst : ∃ v, (producer_lib_step pfx true st0 dir fresh ts mon).2.1 = some v ∧
      strTrim v = fresh := by
    cases st0 with
    | none =>
      refine ⟨fresh, ?_, hf⟩
      unfold producer_lib_step
      rw [has_library_changed_none]
      rfl
    | some old =>
      by_cases heq : strTrim old = fresh
      · refine ⟨old, ?_, heq⟩
        have h1 : has_library_changed (some old) fresh = (false, some old) := by
          rw [has_library_changed_some, if_pos heq]
        unfold producer_lib_step
        rw [h1]
        rfl
      · refine ⟨fresh, ?_, hf⟩
        have h1 : has_library_changed (some old) fresh = (true, some fresh) := by
          rw [has_library_changed_some, if_neg heq]
        unfold producer_lib_step
        rw [h1]
        rfl
  rcases hst with ⟨v, hv1, hv2⟩
  rw [hv1]
  exact key v hv2 _

/-- Branch equation: no producer state file (or an empty one) — the library is
skipped. -/
theorem consumer_lib_step_none (dirNames : List Str) (r : LibRec) (any : Bool)
    (hrem : read_state r.remoteRaw = none) :
    consumer_lib_step dirNames r any = ([CEvent.processLib r.pfx], any, false) := by
  simp [consumer_lib_step, hrem]

/-- Branch equation: the local state matches the producer state — the library
is skipped. -/
theorem consumer_lib_step_skip (dirNames : List Str) (r : LibRec) (any : Bool) (v : Str)
    (hrem : read_state r.remoteRaw = some v)
    (hloc : read_state r.localRaw = some v) :
    consumer_lib_step dirNames r any = ([CEvent.processLib r.pfx], any, false) := by
  simp [consumer_lib_step, hrem, hloc]

/-- Branch equation: the library is pending but no non-monthly artifact
exists — the stop command may already have been issued, then the library is
skipped. -/
theorem consumer_lib_step_no_artifact (dirNames : List Str) (r : LibRec) (any : Bool) (v : Str)
    (hrem : read_state r.remoteRaw = some v)
    (hloc : read_state r.localRaw ≠ some v)
    (hfl : find_latest_non_monthly_backup r.pfx dirNames = none) :
    consumer_lib_step dirNames r any =
      ([CEvent.processLib r.pfx] ++ (if any then [] else [CEvent.stopContainer]),
       any, false) := by
  simp [consumer_lib_step, hrem, hloc, hfl]

/-- Branch equation: the library is pending, an artifact exists and the
extraction raises. -/
theorem consumer_lib_step_raise (dirNames : List Str) (r : LibRec) (any : Bool) (v a : Str)
    (hrem : read_state r.remoteRaw = some v)
    (hloc : read_state r.localRaw ≠ some v)
    (hfl : find_latest_non_monthly_backup r.pfx dirNames = some a)
    (hx : r.extractRaises = true) :
    consumer_lib_step dirNames r any =
      ([CEvent.processLib r.pfx] ++ (if any then [] else [CEvent.stopContainer]) ++
         [CEvent.clearDir r.pfx], any, true) := by
  simp [consumer_lib_step, hrem, hloc, hfl, hx]

/-- Branch equation: the library is pending, an artifact exists and the
restore succeeds — the local state is written (after the extraction) and the
flag is set. -/
theorem consumer_lib_step_restore (dirNames : List Str) (r : LibRec) (any : Bool) (v a : Str)
    (hrem : read_state r.remoteRaw = some v)
    (hloc : read_state r.localRaw ≠ some v)
    (hfl : find_latest_non_monthly_backup r.pfx dirNames = some a)
    (hx : r.extractRaises = false) :
    consumer_lib_step dirNames r any =
      ([CEvent.processLib r.pfx] ++ (if any then [] else [CEvent.stopContainer]) ++
         [CEvent.clearDir r.pfx, CEvent.extract r.pfx a, CEvent.writeLocal r.pfx v],
       true, false) := by
  simp [consumer_lib_step, hrem, hloc, hfl, hx]

/-- A library iteration that does not raise leaves the raised flag clear and
always records its processing event (the loop-entry banner). -/
theorem consumer_lib_step_no_raise (dirNames : List Str) (r : LibRec) (any : Bool)
    (h : r.extractRaises = false) :
    (consumer_lib_step dirNames r any).2.2 = false ∧
    CEvent.processLib r.pfx ∈ (consumer_lib_step dirNames r any).1 := by
  cases hrem : read_state r.remoteRaw with
  | none =>
    rw [consumer_lib_step_none dirNames r any hrem]
    exact ⟨rfl, List.mem_cons_self _ _⟩
  | some v =>
    by_cases hloc : read_state r.localRaw = some v
    · rw [consumer_lib_step_skip dirNames r any v hrem hloc]
      exact ⟨rfl, List.mem_cons_self _ _⟩
    · cases hfl : find_latest_non_monthly_backup r.pfx dirNames with
      | none =>
        rw [consumer_lib_step_no_artifact dirNames r any v hrem hloc hfl]
        exact ⟨rfl, by simp⟩
      | some a =>
        rw [consumer_lib_step_restore dirNames r any v a hrem hloc hfl h]
        exact ⟨rfl, by simp⟩

/-- When no library's extraction raises, the loop processes every library and
finishes with the raised flag clear. -/
theorem consumer_fold_no_raise (dirNames : List Str) (libs : List LibRec)
    (h : ∀ r ∈ libs, r.extractRaises = false) :
    ∀ any, (consumer_fold dirNames libs any).2.2 = false ∧
      ∀ r ∈ libs, CEvent.processLib r.pfx ∈ (consumer_fold dirNames libs any).1 := by
  induction libs with
  | nil =>
    intro any
    refine ⟨rfl, ?_⟩
    intro r hr
    cases hr
  | cons x rest ih =>
    intro any
    have hx := consumer_lib_step_no_raise dirNames x any (h x (List.mem_cons_self _ _))
    have hrest := ih (fun r hr => h r (List.mem_cons_of_mem _ hr))
      (consumer_lib_step dirNames x any).2.1
    have hcons : consumer_fold dirNames (x :: rest) any =
        ((consumer_lib_step dirNames x any).1 ++
           (consumer_fold dirNames rest (consumer_lib_step dirNames x any).2.1).1,
         (consumer_fold dirNames rest (consumer_lib_step dirNames x any).2.1).2.1,
         (consumer_fold dirNames rest (consumer_lib_step dirNames x any).2.1).2.2) := by
      rw [consumer_fold]
      rw [hx.1]
      rw [if_neg Bool.false_ne_true]
    rw [hcons]
    refine ⟨hrest.1, ?_⟩
    intro r hr
    rcases List.mem_cons.mp hr with hr | hr
    · subst hr
      exact List.mem_append_left _ hx.2
    · exact List.mem_append_right _ (hrest.2 r hr)

/-- C1 (code slip at `restore_backup.py` 159-161): the comment says the stop
command is issued the *first* time a change is seen, but the guard uses
`any_restored`, which is set only after a *successful* restore.  With two
pending libraries where the first finds no non-monthly artifact and the
second restores successfully, the run issues the stop command twice (and the
start command once), contradicting the claimed exactly-once stop. -/
theorem consumer_stop_issued_twice :
    ((consumer_main true ["books_library_1.zip".toList]
        [⟨"manga".toList, some "a".toList, none, false⟩,
         ⟨"books".toList, some "b".toList, none, false⟩]).1.count CEvent.stopContainer = 2) ∧
    ((consumer_main true ["books_library_1.zip".toList]
        [⟨"manga".toList, some "a".toList, none, false⟩,
         ⟨"books".toList, some "b".toList, none, false⟩]).1.count CEvent.startContainer = 1) := by
  decide

/-- C2 counterexample, for both roles.  Consumer: an exception during the
first library's extraction propagates out of the loop, so the second
configured library is never attempted (and the container is never
restarted).  Producer: an exception while packing the first library's
archive propagates out of the loop, so the second library is never attempted
and its state is never touched.  Both contradict the claim that a
per-library failure is contained and every remaining library is still
attempted. -/
theorem exception_aborts_batch_both_roles :
    ((consumer_main true ["books_library_1.zip".toList, "manga_library_1.zip".toList]
        [⟨"books".toList, some "b".toList, none, true⟩,
         ⟨"manga".toList, some "a".toList, none, false⟩]).2 = true) ∧
    (CEvent.processLib "manga".toList ∉ (consumer_main true
        ["books_library_1.zip".toList, "manga_library_1.zip".toList]
        [⟨"books".toList, some "b".toList, none, true⟩,
         ⟨"manga".toList, some "a".toList, none, false⟩]).1) ∧
    (CEvent.startContainer ∉ (consumer_main true
        ["books_library_1.zip".toList, "manga_library_1.zip".toList]
        [⟨"books".toList, some "b".toList, none, true⟩,
         ⟨"manga".toList, some "a".toList, none, false⟩]).1) ∧
    ((producer_fold
        [⟨"books".toList, true, none, "f".toList, "t".toList, "m".toList, true⟩,
         ⟨"manga".toList, true, none, "g".toList, "t".toList, "m".toList, false⟩]
        []).2.2.2 = true) ∧
    ("manga".toList ∉ (producer_fold
        [⟨"books".toList, true, none, "f".toList, "t".toList, "m".toList, true⟩,
         ⟨"manga".toList, true, none, "g".toList, "t".toList, "m".toList, false⟩]
        []).2.1) ∧
    (PEvent.writeState "g".toList ∉ (producer_fold
        [⟨"books".toList, true, none, "f".toList, "t".toList, "m".toList, true⟩,
         ⟨"manga".toList, true, none, "g".toList, "t".toList, "m".toList, false⟩]
        []).1) := by
  decide

/-- Consumer half of the containment property: when no library's extraction
raises, the consumer attempts every configured library, whatever mixture of
skips and restores occurs. -/
theorem consumer_attempts_all_without_exception
    (dirNames : List Str) (libs : List LibRec)
    (h : ∀ r ∈ libs, r.extractRaises = false) :
    ∀ r ∈ libs, CEvent.processLib r.pfx ∈ (consumer_main true dirNames libs).1 := by
  intro r hr
  have hfold := consumer_fold_no_raise dirNames libs h false
  have hmem := hfold.2 r hr
  unfold consumer_main
  rw [hfold.1]
  rw [if_neg Bool.false_ne_true]
  by_cases hany : (consumer_fold dirNames libs false).2.1 = true
  · rw [if_pos hany]
    exact List.mem_append_left _ hmem
  · rw [if_neg hany]
    exact hmem

/-- The consumer containment lemma exercised at a concrete two-library input
in which the first library is skipped for lack of an artifact and the second
is restored: both libraries are attempted. -/
theorem consumer_attempts_all_without_exception_witness :
    (∀ r ∈ [(⟨"manga".toList, some "a".toList, none, false⟩ : LibRec),
            ⟨"books".toList, some "b".toList, none, false⟩], r.extractRaises = false) ∧
    (∀ r ∈ [(⟨"manga".toList, some "a".toList, none, false⟩ : LibRec),
            ⟨"books".toList, some "b".toList, none, false⟩],
       CEvent.processLib r.pfx ∈
         (consumer_main true ["books_library_1.zip".toList]
           [⟨"manga".toList, some "a".toList, none, false⟩,
            ⟨"books".toList, some "b".toList, none, false⟩]).1) :=
  ⟨by decide,
   consumer_attempts_all_without_exception ["books_library_1.zip".toList]
     [⟨"manga".toList, some "a".toList, none, false⟩,
      ⟨"books".toList, some "b".toList, none, false⟩]
     (by decide)⟩

theorem read_state_none : read_state none = none := rfl

theorem read_state_some (s : Str) :
    read_state (some s) = if strTrim s = [] then none else some (strTrim s) := rfl

/-- The value produced by `read_state` is never the empty string. -/
theorem read_state_ne_nil (raw : Option Str) (v : Str) (h : read_state raw = some v) :
    v ≠ [] := by
  cases raw with
  | none => exact absurd h (by simp [read_state_none])
  | some s =>
    rw [read_state_some] at h
    by_cases htrim : strTrim s = []
    · rw [if_pos htrim] at h
      cases h
    · rw [if_neg htrim] at h
      have hv : strTrim s = v := Option.some.inj h
      intro hnil
      exact htrim (hv ▸ hnil)

/-- Reading back a state file whose content is an already-stripped non-empty
value returns exactly that value. -/
theorem read_state_roundtrip (v : Str) (hv : strTrim v = v) (hne : v ≠ []) :
    read_state (some v) = some v := by
  rw [read_state_some, hv, if_neg hne]

/-- C9: when a consumer iteration successfully restores a library, it writes
the local state to exactly the producer fingerprint `v` that triggered the
restore, and the write event comes strictly after the extraction event; after
the iteration the flag is set, and a following iteration whose local state
file now holds `v` (with the producer state unchanged) takes no action beyond
logging.  The hypothesis `strTrim v = v` records that fingerprints carry no
surrounding whitespace (`read_state` strips them anyway). -/
theorem consumer_restore_convergence
    (dirNames : List Str) (r : LibRec) (any : Bool) (v a : Str)
    (hr : read_state r.remoteRaw = some v)
    (hl : read_state r.localRaw ≠ some v)
    (ha : find_latest_non_monthly_backup r.pfx dirNames = some a)
    (hx : r.extractRaises = false)
    (hv : strTrim v = v) :
    (consumer_lib_step dirNames r any =
      ([CEvent.processLib r.pfx] ++ (if any then [] else [CEvent.stopContainer]) ++
         [CEvent.clearDir r.pfx, CEvent.extract r.pfx a, CEvent.writeLocal r.pfx v],
       true, false)) ∧
    (∃ i j, ∃ hi : i < (consumer_lib_step dirNames r any).1.length,
       ∃ hj : j < (consumer_lib_step dirNames r any).1.length, i < j ∧
       (consumer_lib_step dirNames r any).1.get ⟨i, hi⟩ = CEvent.extract r.pfx a ∧
       (consumer_lib_step dirNames r any).1.get ⟨j, hj⟩ = CEvent.writeLocal r.pfx v) ∧
    (∀ any2, consumer_lib_step dirNames
        { pfx := r.pfx, remoteRaw := r.remoteRaw, localRaw := some v,
          extractRaises := r.extractRaises } any2 =
      ([CEvent.processLib r.pfx], any2, false)) := by
  have hstep := consumer_lib_step_restore dirNames r any v a hr hl ha hx
  refine ⟨hstep, ?_, ?_⟩
  · cases any with
    | false =>
      have htr : (consumer_lib_step dirNames r false).1 =
          [CEvent.processLib r.pfx, CEvent.stopContainer, CEvent.clearDir r.pfx,
           CEvent.extract r.pfx a, CEvent.writeLocal r.pfx v] := by
        rw [hstep]
        rfl
      rw [htr]
      exact ⟨3, 4, by simp, by simp, by omega, rfl, rfl⟩
    | true =>
      have htr : (consumer_lib_step dirNames r true).1 =
          [CEvent.processLib r.pfx, CEvent.clearDir r.pfx,
           CEvent.extract r.pfx a, CEvent.writeLocal r.pfx v] := by
        rw [hstep]
        rfl
      rw [htr]
      exact ⟨2, 3, by simp, by simp, by omega, rfl, rfl⟩
  · intro any2
    have hne := read_state_ne_nil r.remoteRaw v hr
    have hround := read_state_roundtrip v hv hne
    exact consumer_lib_step_skip dirNames
      { pfx := r.pfx, remoteRaw := r.remoteRaw, localRaw := some v,
        extractRaises := r.extractRaises } any2 v hr hround

/-- Witness for the C6 theorem at a concrete empty backup directory. -/
theorem monthly_snapshot_at_most_once_witness :
    (([] : List Str).count (monthlyName "books".toList "2024-01".toList) ≤ 1) ∧
    (((ensure_monthly_snapshot "books".toList "2024-01".toList []).2.count
        (monthlyName "books".toList "2024-01".toList) = 1) ∧
     (ensure_monthly_snapshot "books".toList "2024-01".toList
        ((ensure_monthly_snapshot "books".toList "2024-01".toList []).2) =
       ([], (ensure_monthly_snapshot "books".toList "2024-01".toList []).2)) ∧
     (∀ n : Nat, (fun d => (ensure_monthly_snapshot "books".toList "2024-01".toList d).2)^[n]
        ((ensure_monthly_snapshot "books".toList "2024-01".toList []).2) =
        (ensure_monthly_snapshot "books".toList "2024-01".toList []).2)) :=
  ⟨by decide, monthly_snapshot_at_most_once "books".toList "2024-01".toList [] (by decide)⟩

/-- Witness for the C3 theorem at a concrete input with no prior state file. -/
theorem producer_state_written_before_archive_witness :
    (∀ old, (none : Option Str) = some old → strTrim old ≠ "f".toList) ∧
    (((producer_lib_step "books".toList true none [] "f".toList "t".toList "m".toList).2.1 =
        some "f".toList) ∧
     ((producer_lib_step "books".toList true none [] "f".toList "t".toList "m".toList).1.head? =
        some (PEvent.writeState "f".toList)) ∧
     (∀ i (hi : i < (producer_lib_step "books".toList true none [] "f".toList "t".toList
            "m".toList).1.length) name,
        (producer_lib_step "books".toList true none [] "f".toList "t".toList
            "m".toList).1.get ⟨i, hi⟩ = PEvent.createArchive name →
        ∃ j, ∃ hj : j < (producer_lib_step "books".toList true none [] "f".toList "t".toList
            "m".toList).1.length,
          j < i ∧ (producer_lib_step "books".toList true none [] "f".toList "t".toList
            "m".toList).1.get ⟨j, hj⟩ = PEvent.writeState "f".toList) ∧
     (strTrim "f".toList = "f".toList →
      ∀ dir2 ts2 mon2,
        producer_lib_step "books".toList true (some "f".toList) dir2 "f".toList ts2 mon2 =
          ([], some "f".toList, dir2))) :=
  ⟨(fun _ h => nomatch h),
   producer_state_written_before_archive "books".toList none [] "f".toList "t".toList "m".toList
     (fun _ h => nomatch h)⟩

/-- Witness for the C8 theorem: two successive producer runs over an
unchanged library starting from no state file. -/
theorem producer_second_run_creates_nothing_witness :
    (strTrim "f".toList = "f".toList) ∧
    (producer_lib_step "books".toList true
        (producer_lib_step "books".toList true none [] "f".toList "t".toList "m".toList).2.1
        (producer_lib_step "books".toList true none [] "f".toList "t".toList "m".toList).2.2
        "f".toList "t2".toList "m2".toList =
      ([], (producer_lib_step "books".toList true none [] "f".toList "t".toList "m".toList).2.1,
           (producer_lib_step "books".toList true none [] "f".toList "t".toList "m".toList).2.2)) :=
  ⟨by decide,
   producer_second_run_creates_nothing "books".toList none [] "f".toList "t".toList "m".toList
     "t2".toList "m2".toList (by decide)⟩

/-- Witness for the C9 theorem at a concrete library with one artifact. -/
theorem consumer_restore_convergence_witness :
    (read_state (LibRec.mk "b".toList (some "f".toList) none false).remoteRaw =
        some "f".toList) ∧
    (read_state (LibRec.mk "b".toList (some "f".toList) none false).localRaw ≠
        some "f".toList) ∧
    (find_latest_non_monthly_backup (LibRec.mk "b".toList (some "f".toList) none false).pfx
        ["b_library_1.zip".toList] = some "b_library_1.zip".toList) ∧
    ((LibRec.mk "b".toList (some "f".toList) none false).extractRaises = false) ∧
    (strTrim "f".toList = "f".toList) ∧
    ((consumer_lib_step ["b_library_1.zip".toList]
        (LibRec.mk "b".toList (some "f".toList) none false) false =
      ([CEvent.processLib "b".toList] ++ (if false then [] else [CEvent.stopContainer]) ++
         [CEvent.clearDir "b".toList, CEvent.extract "b".toList "b_library_1.zip".toList,
          CEvent.writeLocal "b".toList "f".toList],
       true, false)) ∧
     (∃ i j, ∃ hi : i < (consumer_lib_step ["b_library_1.zip".toList]
          (LibRec.mk "b".toList (some "f".toList) none false) false).1.length,
        ∃ hj : j < (consumer_lib_step ["b_library_1.zip".toList]
          (LibRec.mk "b".toList (some "f".toList) none false) false).1.length, i < j ∧
        (consumer_lib_step ["b_library_1.zip".toList]
          (LibRec.mk "b".toList (some "f".toList) none false) false).1.get ⟨i, hi⟩ =
            CEvent.extract "b".toList "b_library_1.zip".toList ∧
        (consumer_lib_step ["b_library_1.zip".toList]
          (LibRec.mk "b".toList (some "f".toList) none false) false).1.get ⟨j, hj⟩ =
            CEvent.writeLocal "b".toList "f".toList) ∧
     (∀ any2, consumer_lib_step ["b_library_1.zip".toList]
        { pfx := (LibRec.mk "b".toList (some "f".toList) none false).pfx,
          remoteRaw := (LibRec.mk "b".toList (some "f".toList) none false).remoteRaw,
          localRaw := some "f".toList,
          extractRaises := (LibRec.mk "b".toList (some "f".toList) none false).extractRaises }
        any2 =
       ([CEvent.processLib "b".toList], any2, false))) :=
  ⟨by decide, by decide, by decide, rfl, by decide,
   consumer_restore_convergence ["b_library_1.zip".toList]
     (LibRec.mk "b".toList (some "f".toList) none false) false "f".toList
     "b_library_1.zip".toList (by decide) (by decide) (by decide) rfl (by decide)⟩

/-- Python's `l[:-k]` is always a subset of `l`. -/
theorem mem_sliceDropLast (l : List Str) (k : Nat) (a : Str) (h : a ∈ sliceDropLast l k) :
    a ∈ l := by
  unfold sliceDropLast at h
  by_cases hk : k = 0
  · rw [if_pos hk] at h
    cases h
  · rw [if_neg hk] at h
    exact List.take_subset _ _ h

/-- The keep-newest-k pattern of `prune_backups_for_prefix`: what it deletes,
followed by the newest `k` entries, is the whole sorted partition. -/
theorem keep_split (l : List Str) (k : Nat) (hk : k ≠ 0) :
    (if k < l.length then sliceDropLast l k else []) ++ l.drop (l.length - k) = l := by
  by_cases h : k < l.length
  · rw [if_pos h]
    unfold sliceDropLast
    rw [if_neg hk]
    exact List.take_append_drop _ l
  · rw [if_neg h]
    have hz : l.length - k = 0 := by omega
    rw [hz, List.drop_zero, List.nil_append]

theorem mem_recentSorted (pfx : Str) (names : List Str) (a : Str) :
    a ∈ recentSorted pfx names ↔
      a ∈ names ∧ strEnds (strLower a) ".zip".toList = true ∧
        strStarts a (pfx ++ "_library_".toList) = true ∧ isMonthlyFile a = false := by
  unfold recentSorted zipsForPfx
  rw [List.mem_insertionSort, List.mem_filter, List.mem_filter]
  simp [and_assoc]

theorem mem_monthlySorted (pfx : Str) (names : List Str) (a : Str) :
    a ∈ monthlySorted pfx names ↔
      a ∈ names ∧ strEnds (strLower a) ".zip".toList = true ∧
        strStarts a (pfx ++ "_library_".toList) = true ∧ isMonthlyFile a = true := by
  unfold monthlySorted zipsForPfx
  rw [List.mem_insertionSort, List.mem_filter, List.mem_filter]
  simp [and_assoc]

theorem mem_pruneRecentDeleted (pfx : Str) (names : List Str) (a : Str)
    (h : a ∈ pruneRecentDeleted pfx names) : a ∈ recentSorted pfx names := by
  unfold pruneRecentDeleted at h
  split at h
  · exact mem_sliceDropLast _ _ _ h
  · cases h

theorem mem_pruneMonthlyDeleted (pfx : Str) (names : List Str) (a : Str)
    (h : a ∈ pruneMonthlyDeleted pfx names) : a ∈ monthlySorted pfx names := by
  unfold pruneMonthlyDeleted at h
  split at h
  · exact mem_sliceDropLast _ _ _ h
  · cases h

theorem mem_pruneSurvivors (pfx : Str) (names : List Str) (a : Str) :
    a ∈ pruneSurvivors pfx names ↔ a ∈ names ∧ a ∉ pruneDeleted pfx names := by
  unfold pruneSurvivors
  rw [List.mem_filter]
  simp

/-- The sorted recent partition as deleted part plus kept part. -/
theorem recent_split (pfx : Str) (names : List Str) :
    pruneRecentDeleted pfx names ++
      (recentSorted pfx names).drop ((recentSorted pfx names).length - MAX_RECENT_BACKUPS) =
      recentSorted pfx names := by
  have e1 : pruneRecentDeleted pfx names =
      if MAX_RECENT_BACKUPS < (recentSorted pfx names).length
      then sliceDropLast (recentSorted pfx names) MAX_RECENT_BACKUPS else [] := rfl
  rw [e1]
  exact keep_split _ _ (by decide)

/-- The sorted monthly partition as deleted part plus kept part. -/
theorem monthly_split (pfx : Str) (names : List Str) :
    pruneMonthlyDeleted pfx names ++
      (monthlySorted pfx names).drop ((monthlySorted pfx names).length - MAX_MONTHLY_SNAPSHOTS) =
      monthlySorted pfx names := by
  have e1 : pruneMonthlyDeleted pfx names =
      if MAX_MONTHLY_SNAPSHOTS < (monthlySorted pfx names).length
      then sliceDropLast (monthlySorted pfx names) MAX_MONTHLY_SNAPSHOTS else [] := rfl
  rw [e1]
  exact keep_split _ _ (by decide)

theorem recentSorted_sorted (pfx : Str) (names : List Str) :
    List.Sorted strLeP (recentSorted pfx names) := by
  haveI : IsTotal Str strLeP := ⟨strLeB_total⟩
  haveI : IsTrans Str strLeP := ⟨strLeB_trans⟩
  exact List.sorted_insertionSort strLeP _

theorem monthlySorted_sorted (pfx : Str) (names : List Str) :
    List.Sorted strLeP (monthlySorted pfx names) := by
  haveI : IsTotal Str strLeP := ⟨strLeB_total⟩
  haveI : IsTrans Str strLeP := ⟨strLeB_trans⟩
  exact List.sorted_insertionSort strLeP _

theorem recentSorted_nodup (pfx : Str) (names : List Str) (hnd : names.Nodup) :
    (recentSorted pfx names).Nodup := by
  have h1 : ((zipsForPfx pfx names).filter (fun n => !isMonthlyFile n)).Nodup :=
    (hnd.filter _).filter _
  exact (List.perm_insertionSort strLeP _).symm.nodup h1

theorem monthlySorted_nodup (pfx : Str) (names : List Str) (hnd : names.Nodup) :
    (monthlySorted pfx names).Nodup := by
  have h1 : ((zipsForPfx pfx names).filter (fun n => isMonthlyFile n)).Nodup :=
    (hnd.filter _).filter _
  exact (List.perm_insertionSort strLeP _).symm.nodup h1

/-- Membership in the kept part of a nodup split. -/
theorem mem_kept_iff {del kept R : List Str} (hsplit : del ++ kept = R) (hnd : R.Nodup)
    (a : Str) : a ∈ kept ↔ a ∈ R ∧ a ∉ del := by
  subst hsplit
  rcases List.nodup_append.mp hnd with ⟨-, -, hdisj⟩
  constructor
  · intro h
    exact ⟨List.mem_append_right _ h, fun hdel => hdisj hdel h⟩
  · rintro ⟨hR, hndel⟩
    rcases List.mem_append.mp hR with h | h
    · exact absurd h hndel
    · exact h

/-- After pruning, the recent partition of the surviving names is exactly the
kept (newest) part of the original sorted recent partition. -/
theorem recent_survivors_eq (pfx : Str) (names : List Str) (hnd : names.Nodup) :
    recentSorted pfx (pruneSurvivors pfx names) =
      (recentSorted pfx names).drop
        ((recentSorted pfx names).length - MAX_RECENT_BACKUPS) := by
  haveI : IsTotal Str strLeP := ⟨strLeB_total⟩
  haveI : IsTrans Str strLeP := ⟨strLeB_trans⟩
  haveI : IsAntisymm Str strLeP := ⟨strLeB_antisymm⟩
  have hsplit := recent_split pfx names
  have hRnodup := recentSorted_nodup pfx names hnd
  have hLsorted := recentSorted_sorted pfx (pruneSurvivors pfx names)
  have hkept_sorted : List.Sorted strLeP
      ((recentSorted pfx names).drop
        ((recentSorted pfx names).length - MAX_RECENT_BACKUPS)) :=
    List.Pairwise.sublist (List.drop_sublist _ _) (recentSorted_sorted pfx names)
  have hsurv_nodup : (pruneSurvivors pfx names).Nodup := hnd.filter _
  have hLnodup := recentSorted_nodup pfx (pruneSurvivors pfx names) hsurv_nodup
  have hkept_nodup : ((recentSorted pfx names).drop
      ((recentSorted pfx names).length - MAX_RECENT_BACKUPS)).Nodup :=
    (List.drop_sublist _ _).nodup hRnodup
  have hmem : ∀ a, a ∈ recentSorted pfx (pruneSurvivors pfx names) ↔
      a ∈ (recentSorted pfx names).drop
        ((recentSorted pfx names).length - MAX_RECENT_BACKUPS) := by
    intro a
    rw [mem_recentSorted, mem_pruneSurvivors, mem_kept_iff hsplit hRnodup, mem_recentSorted]
    constructor
    · rintro ⟨⟨hnames, hndel⟩, hend, hstart, hmon⟩
      refine ⟨⟨hnames, hend, hstart, hmon⟩, ?_⟩
      intro hdel
      exact hndel (show a ∈ pruneDeleted pfx names from List.mem_append_left _ hdel)
    · rintro ⟨⟨hnames, hend, hstart, hmon⟩, hnotdelR⟩
      refine ⟨⟨hnames, ?_⟩, hend, hstart, hmon⟩
      intro hdel
      have hdel2 : a ∈ pruneRecentDeleted pfx names ++ pruneMonthlyDeleted pfx names := hdel
      rcases List.mem_append.mp hdel2 with h | h
      · exact hnotdelR h
      · have hm := (mem_monthlySorted pfx names a).mp (mem_pruneMonthlyDeleted pfx names a h)
        rw [hmon] at hm
        exact absurd hm.2.2.2 (by simp)
  have hperm : (recentSorted pfx (pruneSurvivors pfx names)).Perm
      ((recentSorted pfx names).drop
        ((recentSorted pfx names).length - MAX_RECENT_BACKUPS)) :=
    (List.perm_ext_iff_of_nodup hLnodup hkept_nodup).mpr hmem
  exact List.eq_of_perm_of_sorted hperm hLsorted hkept_sorted

/-- After pruning, the monthly partition of the surviving names is exactly
the kept (newest) part of the original sorted monthly partition. -/
theorem monthly_survivors_eq (pfx : Str) (names : List Str) (hnd : names.Nodup) :
    monthlySorted pfx (pruneSurvivors pfx names) =
      (monthlySorted pfx names).drop
        ((monthlySorted pfx names).length - MAX_MONTHLY_SNAPSHOTS) := by
  haveI : IsTotal Str strLeP := ⟨strLeB_total⟩
  haveI : IsTrans Str strLeP := ⟨strLeB_trans⟩
  haveI : IsAntisymm Str strLeP := ⟨strLeB_antisymm⟩
  have hsplit := monthly_split pfx names
  have hRnodup := monthlySorted_nodup pfx names hnd
  have hLsorted := monthlySorted_sorted pfx (pruneSurvivors pfx names)
  have hkept_sorted : List.Sorted strLeP
      ((monthlySorted pfx names).drop
        ((monthlySorted pfx names).length - MAX_MONTHLY_SNAPSHOTS)) :=
    List.Pairwise.sublist (List.drop_sublist _ _) (monthlySorted_sorted pfx names)
  have hsurv_nodup : (pruneSurvivors pfx names).Nodup := hnd.filter _
  have hLnodup := monthlySorted_nodup pfx (pruneSurvivors pfx names) hsurv_nodup
  have hkept_nodup : ((monthlySorted pfx names).drop
      ((monthlySorted pfx names).length - MAX_MONTHLY_SNAPSHOTS)).Nodup :=
    (List.drop_sublist _ _).nodup hRnodup
  have hmem : ∀ a, a ∈ monthlySorted pfx (pruneSurvivors pfx names) ↔
      a ∈ (monthlySorted pfx names).drop
        ((monthlySorted pfx names).length - MAX_MONTHLY_SNAPSHOTS) := by
    intro a
    rw [mem_monthlySorted, mem_pruneSurvivors, mem_kept_iff hsplit hRnodup, mem_monthlySorted]
    constructor
    · rintro ⟨⟨hnames, hndel⟩, hend, hstart, hmon⟩
      refine ⟨⟨hnames, hend, hstart, hmon⟩, ?_⟩
      intro hdel
      exact hndel (show a ∈ pruneDeleted pfx names from List.mem_append_right _ hdel)
    · rintro ⟨⟨hnames, hend, hstart, hmon⟩, hnotdelM⟩
      refine ⟨⟨hnames, ?_⟩, hend, hstart, hmon⟩
      intro hdel
      have hdel2 : a ∈ pruneRecentDeleted pfx names ++ pruneMonthlyDeleted pfx names := hdel
      rcases List.mem_append.mp hdel2 with h | h
      · have hr := (mem_recentSorted pfx names a).mp (mem_pruneRecentDeleted pfx names a h)
        rw [hmon] at hr
        exact absurd hr.2.2.2 (by simp)
      · exact hnotdelM h
  have hperm : (monthlySorted pfx (pruneSurvivors pfx names)).Perm
      ((monthlySorted pfx names).drop
        ((monthlySorted pfx names).length - MAX_MONTHLY_SNAPSHOTS)) :=
    (List.perm_ext_iff_of_nodup hLnodup hkept_nodup).mpr hmem
  exact List.eq_of_perm_of_sorted hperm hLsorted hkept_sorted

/-- C5: pruning partitions the library's zip artifacts into a recent
(non-monthly) and a monthly partition, each ordered ascending by the encoded
timestamp (the names embed fixed-width timestamps, so the lexicographic order
used by the sorts is the timestamp order); it deletes exactly the artifacts
older than the newest MAX_RECENT_BACKUPS (resp. MAX_MONTHLY_SNAPSHOTS) ones,
deletes nothing in a partition holding at most that many artifacts, and
afterwards each partition holds at most that many artifacts, namely exactly
the most recent ones (every deleted artifact sorts no later than every kept
one).  `names` is the backup-directory listing, necessarily duplicate-free. -/
theorem prune_retention (pfx : Str) (names : List Str) (hnd : names.Nodup) :
    (List.Sorted strLeP (recentSorted pfx names)) ∧
    (List.Sorted strLeP (monthlySorted pfx names)) ∧
    (pruneRecentDeleted pfx names ++
       (recentSorted pfx names).drop
         ((recentSorted pfx names).length - MAX_RECENT_BACKUPS) =
       recentSorted pfx names) ∧
    (pruneMonthlyDeleted pfx names ++
       (monthlySorted pfx names).drop
         ((monthlySorted pfx names).length - MAX_MONTHLY_SNAPSHOTS) =
       monthlySorted pfx names) ∧
    ((recentSorted pfx names).length ≤ MAX_RECENT_BACKUPS →
       pruneRecentDeleted pfx names = []) ∧
    ((monthlySorted pfx names).length ≤ MAX_MONTHLY_SNAPSHOTS →
       pruneMonthlyDeleted pfx names = []) ∧
    (recentSorted pfx (pruneSurvivors pfx names) =
       (recentSorted pfx names).drop
         ((recentSorted pfx names).length - MAX_RECENT_BACKUPS)) ∧
    (monthlySorted pfx (pruneSurvivors pfx names) =
       (monthlySorted pfx names).drop
         ((monthlySorted pfx names).length - MAX_MONTHLY_SNAPSHOTS)) ∧
    ((recentSorted pfx (pruneSurvivors pfx names)).length ≤ MAX_RECENT_BACKUPS) ∧
    ((monthlySorted pfx (pruneSurvivors pfx names)).length ≤ MAX_MONTHLY_SNAPSHOTS) ∧
    (∀ d ∈ pruneRecentDeleted pfx names,
       ∀ s ∈ (recentSorted pfx names).drop
         ((recentSorted pfx names).length - MAX_RECENT_BACKUPS),
         strLeB d s = true) ∧
    (∀ d ∈ pruneMonthlyDeleted pfx names,
       ∀ s ∈ (monthlySorted pfx names).drop
         ((monthlySorted pfx names).length - MAX_MONTHLY_SNAPSHOTS),
         strLeB d s = true) := by
  haveI : IsTotal Str strLeP := ⟨strLeB_total⟩
  haveI : IsTrans Str strLeP := ⟨strLeB_trans⟩
  have hRsorted := recentSorted_sorted pfx names
  have hMsorted := monthlySorted_sorted pfx names
  have hRsplit := recent_split pfx names
  have hMsplit := monthly_split pfx names
  refine ⟨hRsorted, hMsorted, hRsplit, hMsplit, ?_, ?_, recent_survivors_eq pfx names hnd,
          monthly_survivors_eq pfx names hnd, ?_, ?_, ?_, ?_⟩
  · intro hlen
    exact if_neg (by omega)
  · intro hlen
    exact if_neg (by omega)
  · rw [recent_survivors_eq pfx names hnd, List.length_drop]
    omega
  · rw [monthly_survivors_eq pfx names hnd, List.length_drop]
    omega
  · have hp : List.Pairwise strLeP
        (pruneRecentDeleted pfx names ++
          (recentSorted pfx names).drop
            ((recentSorted pfx names).length - MAX_RECENT_BACKUPS)) := by
      rw [hRsplit]
      exact hRsorted
    exact (List.pairwise_append.mp hp).2.2
  · have hp : List.Pairwise strLeP
        (pruneMonthlyDeleted pfx names ++
          (monthlySorted pfx names).drop
            ((monthlySorted pfx names).length - MAX_MONTHLY_SNAPSHOTS)) := by
      rw [hMsplit]
      exact hMsorted
    exact (List.pairwise_append.mp hp).2.2

/-- Witness for the C5 theorem at a concrete listing with two recent
artifacts (only the newest survives), one monthly artifact and one unrelated
file. -/
theorem prune_retention_witness :
    (["b_library_1.zip".toList, "b_library_2.zip".toList,
      "b_library_3_monthly.zip".toList, "notes.txt".toList].Nodup) ∧
    (
    (List.Sorted strLeP (recentSorted "b".toList 
      ["b_library_1.zip".toList, "b_library_2.zip".toList,
        "b_library_3_monthly.zip".toList, "notes.txt".toList])) ∧
    (List.Sorted strLeP (monthlySorted "b".toList 
      ["b_library_1.zip".toList, "b_library_2.zip".toList,
        "b_library_3_monthly.zip".toList, "notes.txt".toList])) ∧
    (pruneRecentDeleted "b".toList 
      ["b_library_1.zip".toList, "b_library_2.zip".toList,
        "b_library_3_monthly.zip".toList, "notes.txt".toList] ++
       (recentSorted "b".toList 
      ["b_library_1.zip".toList, "b_library_2.zip".toList,
        "b_library_3_monthly.zip".toList, "notes.txt".toList]).drop
         ((recentSorted "b".toList 
      ["b_library_1.zip".toList, "b_library_2.zip".toList,
        "b_library_3_monthly.zip".toList, "notes.txt".toList]).length - MAX_RECENT_BACKUPS) =
       recentSorted "b".toList 
      ["b_library_1.zip".toList, "b_library_2.zip".toList,
        "b_library_3_monthly.zip".toList, "notes.txt".toList]) ∧
    (pruneMonthlyDeleted "b".toList 
      ["b_library_1.zip".toList, "b_library_2.zip".toList,
        "b_library_3_monthly.zip".toList, "notes.txt".toList] ++
       (monthlySorted "b".toList 
      ["b_library_1.zip".toList, "b_library_2.zip".toList,
        "b_library_3_monthly.zip".toList, "notes.txt".toList]).drop
         ((monthlySorted "b".toList 
      ["b_library_1.zip".toList, "b_library_2.zip".toList,
        "b_library_3_monthly.zip".toList, "notes.txt".toList]).length - MAX_MONTHLY_SNAPSHOTS) =
       monthlySorted "b".toList 
      ["b_library_1.zip".toList, "b_library_2.zip".toList,
        "b_library_3_monthly.zip".toList, "notes.txt".toList]) ∧
    ((recentSorted "b".toList 
      ["b_library_1.zip".toList, "b_library_2.zip".toList,
        "b_library_3_monthly.zip".toList, "notes.txt".toList]).length ≤ MAX_RECENT_BACKUPS →
       pruneRecentDeleted "b".toList 
      ["b_library_1.zip".toList, "b_library_2.zip".toList,
        "b_library_3_monthly.zip".toList, "notes.txt".toList] = []) ∧
    ((monthlySorted "b".toList 
      ["b_library_1.zip".toList, "b_library_2.zip".toList,
        "b_library_3_monthly.zip".toList, "notes.txt".toList]).length ≤ MAX_MONTHLY_SNAPSHOTS →
       pruneMonthlyDeleted "b".toList 
      ["b_library_1.zip".toList, "b_library_2.zip".toList,
        "b_library_3_monthly.zip".toList, "notes.txt".toList] = []) ∧
    (recentSorted "b".toList (pruneSurvivors "b".toList 
      ["b_library_1.zip".toList, "b_library_2.zip".toList,
        "b_library_3_monthly.zip".toList, "notes.txt".toList]) =
       (recentSorted "b".toList 
      ["b_library_1.zip".toList, "b_library_2.zip".toList,
        "b_library_3_monthly.zip".toList, "notes.txt".toList]).drop
         ((recentSorted "b".toList 
      ["b_library_1.zip".toList, "b_library_2.zip".toList,
        "b_library_3_monthly.zip".toList, "notes.txt".toList]).length - MAX_RECENT_BACKUPS)) ∧
    (monthlySorted "b".toList (pruneSurvivors "b".toList 
      ["b_library_1.zip".toList, "b_library_2.zip".toList,
        "b_library_3_monthly.zip".toList, "notes.txt".toList]) =
       (monthlySorted "b".toList 
      ["b_library_1.zip".toList, "b_library_2.zip".toList,
        "b_library_3_monthly.zip".toList, "notes.txt".toList]).drop
         ((monthlySorted "b".toList 
      ["b_library_1.zip".toList, "b_library_2.zip".toList,
        "b_library_3_monthly.zip".toList, "notes.txt".toList]).length - MAX_MONTHLY_SNAPSHOTS)) ∧
    ((recentSorted "b".toList (pruneSurvivors "b".toList 
      ["b_library_1.zip".toList, "b_library_2.zip".toList,
        "b_library_3_monthly.zip".toList, "notes.txt".toList])).length ≤ MAX_RECENT_BACKUPS) ∧
    ((monthlySorted "b".toList (pruneSurvivors "b".toList 
      ["b_library_1.zip".toList, "b_library_2.zip".toList,
        "b_library_3_monthly.zip".toList, "notes.txt".toList])).length ≤ MAX_MONTHLY_SNAPSHOTS) ∧
    (∀ d ∈ pruneRecentDeleted "b".toList 
      ["b_library_1.zip".toList, "b_library_2.zip".toList,
        "b_library_3_monthly.zip".toList, "notes.txt".toList],
       ∀ s ∈ (recentSorted "b".toList 
      ["b_library_1.zip".toList, "b_library_2.zip".toList,
        "b_library_3_monthly.zip".toList, "notes.txt".toList]).drop
         ((recentSorted "b".toList 
      ["b_library_1.zip".toList, "b_library_2.zip".toList,
        "b_library_3_monthly.zip".toList, "notes.txt".toList]).length - MAX_RECENT_BACKUPS),
         strLeB d s = true) ∧
    (∀ d ∈ pruneMonthlyDeleted "b".toList 
      ["b_library_1.zip".toList, "b_library_2.zip".toList,
        "b_library_3_monthly.zip".toList, "notes.txt".toList],
       ∀ s ∈ (monthlySorted "b".toList 
      ["b_library_1.zip".toList, "b_library_2.zip".toList,
        "b_library_3_monthly.zip".toList, "notes.txt".toList]).drop
         ((monthlySorted "b".toList 
      ["b_library_1.zip".toList, "b_library_2.zip".toList,
        "b_library_3_monthly.zip".toList, "notes.txt".toList]).length - MAX_MONTHLY_SNAPSHOTS),
         strLeB d s = true)) :=
  ⟨by decide,
   prune_retention "b".toList
     ["b_library_1.zip".toList, "b_library_2.zip".toList,
      "b_library_3_monthly.zip".toList, "notes.txt".toList] (by decide)⟩

/-- The records fed to the hash are exactly the spec's format applied to the
(relative path, size, mtime) triples of the traversal's surviving files. -/
theorem walkRecords_eq_specEntries (stat : Str → Option (Nat × Int)) :
    ∀ t pre, walkRecords stat pre t = (specEntries stat pre t).map
      (fun e => e.1 ++ ['|'] ++ natToStr e.2.1 ++ ['|'] ++ intToStr e.2.2 ++ ['\n']) := by
  intro t
  induction t using FsTree.inductionOn with
  | h files dirs ih =>
    intro pre
    rw [walkRecords_node, specEntries_node, List.map_append]
    congr 1
    · rw [List.map_filterMap]
      have hfn : (fun name =>
            Option.map (fun sm => fileRecord (pre ++ name) sm.1 sm.2) (stat (pre ++ name))) =
          (fun name =>
            Option.map
              (fun e : Str × Nat × Int =>
                e.1 ++ ['|'] ++ natToStr e.2.1 ++ ['|'] ++ intToStr e.2.2 ++ ['\n'])
              (Option.map (fun sm => (pre ++ name, sm)) (stat (pre ++ name)))) := by
        funext name
        rw [Option.map_map]
        rfl
      rw [hfn]
    · rw [List.map_flatMap]
      refine List.flatMap_congr ?_
      intro p hp
      exact ih p ((List.mem_insertionSort dirLeP).mp hp) _

/-- C7: the fingerprint is the digest of the concatenation of exactly one
UTF-8 record `rel_path|size|mtime\n` per regular file surviving the stat
(vanished files are skipped, not errors), in the order of the
per-level-sorted traversal, where the relative path uses the normalized
separator and the mtime is the whole-seconds integer.  `specEntries` is the
specification-side description of the traversal; the digest - SHA-256
followed by hex encoding - is abstracted as `digest`. -/
theorem fingerprint_record_format (digest : Str → Str)
    (stat : Str → Option (Nat × Int)) (t : FsTree) :
    compute_library_fingerprint digest stat t =
      digest ((specEntries stat [] t).map
        (fun e => e.1 ++ ['|'] ++ natToStr e.2.1 ++ ['|'] ++ intToStr e.2.2 ++ ['\n'])).flatten := by
  unfold compute_library_fingerprint
  rw [walkRecords_eq_specEntries]

/-- Mapping `canon` over the subtrees preserves names, hence sortedness of a
subdirectory list by name. -/
theorem pairwise_map_canon {l : List (Str × FsTree)} (h : List.Pairwise dirLeP l) :
    List.Pairwise dirLeP (l.map (fun p => (p.1, canon p.2))) := by
  rw [List.pairwise_map]
  exact h.imp (fun hab => hab)

/-- Sorted-by-name subdirectory lists with duplicate-free names are equal as
soon as they are permutations of each other. -/
theorem sorted_pairs_eq {l₁ l₂ : List (Str × FsTree)} (hp : l₁.Perm l₂)
    (h₁ : List.Pairwise dirLeP l₁) (h₂ : List.Pairwise dirLeP l₂)
    (hnd : (l₁.map Prod.fst).Nodup) : l₁ = l₂ := by
  haveI : IsAntisymm (Str × FsTree) (fun a b => strLeB a.1 b.1 = true ∧ a.1 ≠ b.1) :=
    ⟨fun a b ha hb => absurd (strLeB_antisymm _ _ ha.1 hb.1) ha.2⟩
  have hnd₂ : (l₂.map Prod.fst).Nodup := (hp.map Prod.fst).nodup hnd
  have hne₁ : List.Pairwise (fun a b : Str × FsTree => a.1 ≠ b.1) l₁ := by
    unfold List.Nodup at hnd
    exact List.pairwise_map.mp hnd
  have hne₂ : List.Pairwise (fun a b : Str × FsTree => a.1 ≠ b.1) l₂ := by
    unfold List.Nodup at hnd₂
    exact List.pairwise_map.mp hnd₂
  exact List.eq_of_perm_of_sorted hp (h₁.and hne₁) (h₂.and hne₂)

/-- Fingerprinting a tree is the same as fingerprinting its canonical
(recursively sorted) form: the sorts inside the walk erase the enumeration
order. -/
theorem walkRecords_canon (stat : Str → Option (Nat × Int)) :
    ∀ t pre, walkRecords stat pre (canon t) = walkRecords stat pre t := by
  haveI : IsTotal Str strLeP := ⟨strLeB_total⟩
  haveI : IsTrans Str strLeP := ⟨strLeB_trans⟩
  haveI : IsTotal (Str × FsTree) dirLeP := ⟨fun a b => strLeB_total a.1 b.1⟩
  haveI : IsTrans (Str × FsTree) dirLeP := ⟨fun a b c => strLeB_trans a.1 b.1 c.1⟩
  intro t
  induction t using FsTree.inductionOn with
  | h files dirs ih =>
    intro pre
    rw [canon_node, walkRecords_node, walkRecords_node]
    congr 1
    · rw [List.Sorted.insertionSort_eq (List.sorted_insertionSort strLeP files)]
    · rw [List.Sorted.insertionSort_eq
        (pairwise_map_canon (List.sorted_insertionSort dirLeP dirs))]
      rw [List.flatMap_map]
      refine List.flatMap_congr ?_
      intro p hp
      exact ih p ((List.mem_insertionSort dirLeP).mp hp) _

/-- Two enumerations of the same on-disk tree (with duplicate-free
subdirectory names) have the same canonical form. -/
theorem canon_shuffled : ∀ {t₁ t₂ : FsTree}, Shuffled t₁ t₂ → wfB t₁ = true →
    canon t₁ = canon t₂ := by
  haveI : IsTotal Str strLeP := ⟨strLeB_total⟩
  haveI : IsTrans Str strLeP := ⟨strLeB_trans⟩
  haveI : IsAntisymm Str strLeP := ⟨strLeB_antisymm⟩
  haveI : IsTotal (Str × FsTree) dirLeP := ⟨fun a b => strLeB_total a.1 b.1⟩
  haveI : IsTrans (Str × FsTree) dirLeP := ⟨fun a b c => strLeB_trans a.1 b.1 c.1⟩
  intro t₁ t₂ h
  induction h with
  | node hf hd hl hnames hsub ih =>
    rename_i files₁ files₂ dirs₁ dirs₂ ds
    intro hwf
    rw [wfB_node, Bool.and_eq_true] at hwf
    have hnd : (dirs₁.map Prod.fst).Nodup := of_decide_eq_true hwf.1
    have hwfsub : ∀ p ∈ dirs₁, wfB p.2 = true := by
      have h2 := hwf.2
      rw [List.all_eq_true] at h2
      exact h2
    rw [canon_node, canon_node]
    congr 1
    · exact List.eq_of_perm_of_sorted
        (((List.perm_insertionSort _ _).trans hf).trans (List.perm_insertionSort _ _).symm)
        (List.sorted_insertionSort _ _) (List.sorted_insertionSort _ _)
    · have hmapeq : ds.map (fun p => (p.1, canon p.2)) =
          dirs₂.map (fun p => (p.1, canon p.2)) := by
        apply List.ext_getElem
        · rw [List.length_map, List.length_map]
          exact hl
        · intro i hi₁ hi₂
          rw [List.length_map] at hi₁ hi₂
          rw [List.getElem_map, List.getElem_map]
          have hmem : ds[i] ∈ dirs₁ := hd.mem_iff.mpr (List.getElem_mem _)
          have hwfi : wfB (ds.get ⟨i, hi₁⟩).2 = true := hwfsub _ hmem
          have hn := hnames i hi₁
          have hc := ih i hi₁ hwfi
          rw [Prod.mk.injEq]
          exact ⟨hn, hc⟩
      have p1 : ((dirs₁.insertionSort dirLeP).map (fun p => (p.1, canon p.2))).Perm
          (dirs₁.map (fun p => (p.1, canon p.2))) :=
        (List.perm_insertionSort _ _).map _
      have p24 : (dirs₁.map (fun p => (p.1, canon p.2))).Perm
          (dirs₂.map (fun p => (p.1, canon p.2))) := by
        rw [← hmapeq]
        exact hd.map _
      have p4 : (dirs₂.map (fun p => (p.1, canon p.2))).Perm
          ((dirs₂.insertionSort dirLeP).map (fun p => (p.1, canon p.2))) :=
        ((List.perm_insertionSort _ _).map _).symm
      have hndm : (((dirs₁.insertionSort dirLeP).map (fun p => (p.1, canon p.2))).map
          Prod.fst).Nodup := by
        rw [List.map_map]
        have hfst : (Prod.fst ∘ (fun p : Str × FsTree => (p.1, canon p.2))) =
            (Prod.fst : Str × FsTree → Str) := rfl
        rw [hfst]
        exact ((List.perm_insertionSort dirLeP dirs₁).map Prod.fst).symm.nodup hnd
      exact sorted_pairs_eq (p1.trans (p24.trans p4))
        (pairwise_map_canon (List.sorted_insertionSort dirLeP dirs₁))
        (pairwise_map_canon (List.sorted_insertionSort dirLeP dirs₂))
        hndm

/-- Every tree is a shuffle of itself. -/
theorem shuffled_refl : ∀ t : FsTree, Shuffled t t := by
  intro t
  induction t using FsTree.inductionOn with
  | h files dirs ih =>
    exact Shuffled.node (List.Perm.refl files) (List.Perm.refl dirs) rfl
      (fun i h₁ => rfl) (fun i h₁ => ih _ (List.get_mem dirs i h₁))

/-- C4: the fingerprint is a deterministic function of the on-disk file set
alone — for any two enumerations of the same tree (sibling file and
subdirectory lists permuted arbitrarily by the OS, recursively; subdirectory
names duplicate-free as in every real directory) the digests are equal,
whatever the underlying hash, because the walk sorts both lists at every
level. -/
theorem fingerprint_deterministic (digest : Str → Str)
    (stat : Str → Option (Nat × Int)) (t₁ t₂ : FsTree)
    (h : Shuffled t₁ t₂) (hwf : wfB t₁ = true) :
    compute_library_fingerprint digest stat t₁ =
      compute_library_fingerprint digest stat t₂ := by
  unfold compute_library_fingerprint
  rw [← walkRecords_canon stat t₁ [], ← walkRecords_canon stat t₂ [],
    canon_shuffled h hwf]

/-- Witness for the C4 theorem: two enumerations of a small library tree with
one subdirectory, with the root's file list in different orders. -/
theorem fingerprint_deterministic_witness :
    (Shuffled
       (FsTree.node ["b".toList, "a".toList] [("d".toList, FsTree.node ["x".toList] [])])
       (FsTree.node ["a".toList, "b".toList] [("d".toList, FsTree.node ["x".toList] [])])) ∧
    (wfB (FsTree.node ["b".toList, "a".toList]
       [("d".toList, FsTree.node ["x".toList] [])]) = true) ∧
    (compute_library_fingerprint id (fun _ => some (1, 0))
       (FsTree.node ["b".toList, "a".toList] [("d".toList, FsTree.node ["x".toList] [])]) =
     compute_library_fingerprint id (fun _ => some (1, 0))
       (FsTree.node ["a".toList, "b".toList] [("d".toList, FsTree.node ["x".toList] [])])) := by
  have hs : Shuffled
      (FsTree.node ["b".toList, "a".toList] [("d".toList, FsTree.node ["x".toList] [])])
      (FsTree.node ["a".toList, "b".toList] [("d".toList, FsTree.node ["x".toList] [])]) :=
    Shuffled.node (by decide) (List.Perm.refl _) rfl (fun i h₁ => rfl)
      (fun i h₁ => shuffled_refl _)
  have hw2 : wfB (FsTree.node ["x".toList] []) = true := by
    rw [wfB_node]
    decide
  have hw : wfB (FsTree.node ["b".toList, "a".toList]
      [("d".toList, FsTree.node ["x".toList] [])]) = true := by
    rw [wfB_node]
    simp only [List.all_cons, List.all_nil]
    rw [hw2]
    decide
  exact ⟨hs, hw, fingerprint_deterministic id (fun _ => some (1, 0)) _ _ hs hw⟩

/-- A producer iteration whose pack does not raise leaves the raised flag
clear. -/
theorem producer_lib_run_no_raise (dir : List Str) (r : PLibRec)
    (h : r.packRaises = false) : (producer_lib_run dir r).2.2.2 = false := by
  unfold producer_lib_run
  rw [h]
  rfl

/-- When no library's pack raises, the producer loop attempts every
configured library — also those whose directory is missing or whose
fingerprint is unchanged — and finishes with the raised flag clear. -/
theorem producer_fold_no_raise : ∀ (libs : List PLibRec),
    (∀ r ∈ libs, r.packRaises = false) →
    ∀ dir, (producer_fold libs dir).2.2.2 = false ∧
      ∀ r ∈ libs, r.pfx ∈ (producer_fold libs dir).2.1 := by
  intro libs
  induction libs with
  | nil =>
    intro h dir
    exact ⟨rfl, fun r hr => absurd hr (List.not_mem_nil r)⟩
  | cons x rest ih =>
    intro h dir
    have hx := producer_lib_run_no_raise dir x (h x (List.mem_cons_self _ _))
    have hcons : producer_fold (x :: rest) dir =
        ((producer_lib_run dir x).1 ++
           (producer_fold rest (producer_lib_run dir x).2.2.1).1,
         x.pfx :: (producer_fold rest (producer_lib_run dir x).2.2.1).2.1,
         (producer_fold rest (producer_lib_run dir x).2.2.1).2.2.1,
         (producer_fold rest (producer_lib_run dir x).2.2.1).2.2.2) := by
      rw [producer_fold]
      rw [hx]
      rw [if_neg Bool.false_ne_true]
    rw [hcons]
    have hrest := ih (fun r hr => h r (List.mem_cons_of_mem _ hr))
      (producer_lib_run dir x).2.2.1
    refine ⟨hrest.1, ?_⟩
    intro r hr
    rcases List.mem_cons.mp hr with hr | hr
    · subst hr
      exact List.mem_cons_self _ _
    · exact List.mem_cons_of_mem _ (hrest.2 r hr)

/-- C2 amended: in both roles, the anticipated per-library skip conditions
(missing library directory, missing producer state, unchanged state, missing
artifact) are contained — when no library's archive pack or unpack raises,
every configured library is still attempted, whatever mixture of skips,
backups and restores occurs; but an exception raised while packing or
unpacking one library's archive is *not* contained and aborts the rest of
the batch in that role (see the counterexample). -/
theorem batch_attempts_all_without_exception
    (dirNames : List Str) (clibs : List LibRec) (plibs : List PLibRec) (dir : List Str)
    (hc : ∀ r ∈ clibs, r.extractRaises = false)
    (hp : ∀ r ∈ plibs, r.packRaises = false) :
    (∀ r ∈ clibs, CEvent.processLib r.pfx ∈ (consumer_main true dirNames clibs).1) ∧
    (∀ r ∈ plibs, r.pfx ∈ (producer_fold plibs dir).2.1) :=
  ⟨consumer_attempts_all_without_exception dirNames clibs hc,
   (producer_fold_no_raise plibs hp dir).2⟩

/-- Witness for the amended C2 theorem: on the consumer side the first
library lacks an artifact and the second is restored; on the producer side
the first library's directory is missing and the second backs up normally —
all four libraries are attempted. -/
theorem batch_attempts_all_without_exception_witness :
    (∀ r ∈ [(⟨"manga".toList, some "a".toList, none, false⟩ : LibRec),
            ⟨"books".toList, some "b".toList, none, false⟩], r.extractRaises = false) ∧
    (∀ r ∈ [(⟨"books".toList, false, none, "f".toList, "t".toList, "m".toList, false⟩ : PLibRec),
            ⟨"manga".toList, true, none, "g".toList, "t".toList, "m".toList, false⟩],
       r.packRaises = false) ∧
    ((∀ r ∈ [(⟨"manga".toList, some "a".toList, none, false⟩ : LibRec),
             ⟨"books".toList, some "b".toList, none, false⟩],
        CEvent.processLib r.pfx ∈
          (consumer_main true ["books_library_1.zip".toList]
            [⟨"manga".toList, some "a".toList, none, false⟩,
             ⟨"books".toList, some "b".toList, none, false⟩]).1) ∧
     (∀ r ∈ [(⟨"books".toList, false, none, "f".toList, "t".toList, "m".toList, false⟩ : PLibRec),
             ⟨"manga".toList, true, none, "g".toList, "t".toList, "m".toList, false⟩],
        r.pfx ∈ (producer_fold
          [⟨"books".toList, false, none, "f".toList, "t".toList, "m".toList, false⟩,
           ⟨"manga".toList, true, none, "g".toList, "t".toList, "m".toList, false⟩]
          []).2.1)) :=
  ⟨by decide, by decide,
   batch_attempts_all_without_exception ["books_library_1.zip".toList]
     [⟨"manga".toList, some "a".toList, none, false⟩,
      ⟨"books".toList, some "b".toList, none, false⟩]
     [⟨"books".toList, false, none, "f".toList, "t".toList, "m".toList, false⟩,
      ⟨"manga".toList, true, none, "g".toList, "t".toList, "m".toList, false⟩]
     [] (by decide) (by decide)⟩
